import Mathlib

/-!
Verification development for the hlbc decompiler: a shallow embedding of the
per-function opcode-to-AST lifting engine (`hlbc-decompiler/src/lib.rs`) and of
the bytecode data model (`hlbc/src/types.rs`, `hlbc/src/fmt.rs`), with theorems
settling the specification's claims about it.

Rust `HashMap`/`HashSet` values are modelled as association lists / lists with
insert-or-replace semantics; `f64` constants are carried opaquely (the lifter
never computes with them); Rust panics (`unwrap`, `expect`, `panic!`, index out
of bounds) are modelled by an `Except` error; the recursion into closure bodies
is driven by an explicit fuel parameter (the Rust recursion has no bound).
The `scopes`, `ast` and `post` modules of the decompiler crate are not part of
the given sources; their definitions below are modelled from the specification
(each marked `Modelled from the spec:`).
-/

namespace Hlbc

/-- Register argument (Rust `Reg(u32)`, `types.rs`). -/
structure Reg where
  val : Nat
deriving DecidableEq, Repr

/-- Reference to the i32 constant pool (`RefInt`). -/
structure RefInt where
  val : Nat
deriving DecidableEq, Repr

/-- Reference to the f64 constant pool (`RefFloat`). -/
structure RefFloat where
  val : Nat
deriving DecidableEq, Repr

/-- Reference to the string constant pool (`RefString`). -/
structure RefString where
  val : Nat
deriving DecidableEq, Repr

/-- Reference to a global (`RefGlobal`). -/
structure RefGlobal where
  val : Nat
deriving DecidableEq, Repr

/-- Reference to an object field (`RefField`). -/
structure RefField where
  val : Nat
deriving DecidableEq, Repr

/-- Reference to a type in the type pool (`RefType`). -/
structure RefType where
  val : Nat
deriving DecidableEq, Repr

/-- Index reference to a function or a native (`RefFun`, findex). -/
structure RefFun where
  val : Nat
deriving DecidableEq, Repr

/-- Reference to an enum variant (`RefEnumConstruct`). -/
structure RefEnumConstruct where
  val : Nat
deriving DecidableEq, Repr

/-- An opaque 64-bit float value: the decompiler only copies f64 constants, it
never computes with them, so the bit pattern is all that is needed. -/
structure F64 where
  bits : Nat
deriving DecidableEq, Repr

/-- Association-list lookup, modelling `HashMap::get`. -/
def lookupA {α β : Type} [DecidableEq α] : List (α × β) → α → Option β
  | [], _ => none
  | (k, v) :: rest, key => if k = key then some v else lookupA rest key

/-- Association-list insert-or-replace, modelling `HashMap::insert`. -/
def insertA {α β : Type} [DecidableEq α] : List (α × β) → α → β → List (α × β)
  | [], key, v => [(key, v)]
  | (k, w) :: rest, key, v =>
      if k = key then (key, v) :: rest else (k, w) :: insertA rest key v

/-- Set insert, modelling `HashSet::insert` (no duplicates). -/
def seenInsert (s : List String) (n : String) : List String :=
  if n ∈ s then s else n :: s

/-- Rust `x as i32` on an integer value (two's-complement truncation). -/
def asI32 (x : Int) : Int := (x + 2 ^ 31) % 2 ^ 32 - 2 ^ 31

/-- Rust `x as usize` on an i32 value (two's-complement reinterpretation on a
64-bit platform). -/
def asUsize (x : Int) : Nat := (x % 2 ^ 64).toNat

/-- Panic outcome of a lift: a Rust panic (unwrap/expect/index/panic macro), or
exhaustion of the explicit fuel driving the closure recursion. -/
inductive Panic where
  | panic (msg : String)
  | outOfFuel
deriving DecidableEq, Repr

/-- Rust slice indexing `l[i]`: panics when out of bounds. -/
def listIdx {α : Type} (l : List α) (i : Nat) : Except Panic α :=
  match l.get? i with
  | some x => Except.ok x
  | none => Except.error (Panic.panic "index out of bounds")

/-- Constant literals (Modelled from the spec: §3 `Constant` expression,
the missing `ast` module). -/
inductive Constant where
  | IntLit (v : Int)
  | FloatLit (v : F64)
  | BoolLit (b : Bool)
  | StringLit (s : String)
  | Null
deriving DecidableEq, Repr

/-- Unary operator kinds (Modelled from the spec: §3, the missing `ast`
module). -/
inductive UnOpKind where
  | neg
  | not
  | incr
  | decr
deriving DecidableEq, Repr

/-- Binary operator kinds (Modelled from the spec: §3, the missing `ast`
module). -/
inductive BinOpKind where
  | add
  | sub
  | mul
  | div
  | mod
  | shl
  | shr
  | and
  | or
  | xor
  | eq
  | noteq
  | lt
  | lte
  | gt
  | gte
deriving DecidableEq, Repr

mutual
/-- Expressions of the produced AST (Modelled from the spec: §3, the missing
`ast` module; constructor set as used by `lib.rs`). `FunRef` is the
function-reference callee produced by `call_fun` (§4.5). -/
inductive Expr where
  | Constant (c : Constant)
  | This
  | Variable (reg : Reg) (name : Option String)
  | Unknown (msg : String)
  | UnaryOp (op : UnOpKind) (e : Expr)
  | BinaryOp (op : BinOpKind) (lhs rhs : Expr)
  | Field (receiver : Expr) (name : String)
  | ArrayIndex (receiver index : Expr)
  | Call (callee : Expr) (args : List Expr)
  | Constructor (ty : RefType) (args : List Expr)
  | FunRef (f : RefFun)
  | Closure (f : RefFun) (body : List Statement)
  | EnumConstr (ty : RefType) (variant : RefEnumConstruct) (args : List Expr)
  | Anonymous (ty : RefType) (fields : List (RefField × Expr))
deriving Repr

/-- Statements of the produced AST (Modelled from the spec: §3, the missing
`ast` module). -/
inductive Statement where
  | Assign (declaration : Bool) (variable_ : Expr) (assign : Expr)
  | ExprStmt (e : Expr)
  | Return (e : Option Expr)
  | If (cond : Expr) (then_ : List Statement) (else_ : Option (List Statement))
  | While (cond : Expr) (body : List Statement)
  | Switch (arg : Expr) (cases : List (List Statement))
  | Try (body : List Statement)
  | Throw (e : Expr)
  | Break
  | Continue
  | Comment (text : String)
deriving Repr
end

namespace Ast

/-- Modelled from the spec: `ast` constructor helper `cst_this`. -/
def cst_this : Expr := Expr.This

/-- Modelled from the spec: `ast` constructor helper `cst_null`. -/
def cst_null : Expr := Expr.Constant Constant.Null

/-- Modelled from the spec: `ast` constructor helper `cst_int`. -/
def cst_int (v : Int) : Expr := Expr.Constant (Constant.IntLit v)

/-- Modelled from the spec: `ast` constructor helper `cst_float`. -/
def cst_float (v : F64) : Expr := Expr.Constant (Constant.FloatLit v)

/-- Modelled from the spec: `ast` constructor helper `cst_bool`. -/
def cst_bool (b : Bool) : Expr := Expr.Constant (Constant.BoolLit b)

/-- Modelled from the spec: `ast` constructor helper `cst_string`. -/
def cst_string (s : String) : Expr := Expr.Constant (Constant.StringLit s)

/-- Modelled from the spec: `ast` helper `not`. -/
def notE (e : Expr) : Expr := Expr.UnaryOp UnOpKind.not e

/-- Modelled from the spec: `ast` helper `neg`. -/
def negE (e : Expr) : Expr := Expr.UnaryOp UnOpKind.neg e

/-- Modelled from the spec: `ast` helper `incr`. -/
def incrE (e : Expr) : Expr := Expr.UnaryOp UnOpKind.incr e

/-- Modelled from the spec: `ast` helper `decr`. -/
def decrE (e : Expr) : Expr := Expr.UnaryOp UnOpKind.decr e

/-- Modelled from the spec: `ast` binary helpers (`add` … `gte`). -/
def binE (k : BinOpKind) (a b : Expr) : Expr := Expr.BinaryOp k a b

/-- Modelled from the spec: `ast` helper `eq`. -/
def eqE (a b : Expr) : Expr := binE BinOpKind.eq a b

/-- Modelled from the spec: `ast` helper `noteq`. -/
def noteqE (a b : Expr) : Expr := binE BinOpKind.noteq a b

/-- Modelled from the spec: `ast` helper `gt`. -/
def gtE (a b : Expr) : Expr := binE BinOpKind.gt a b

/-- Modelled from the spec: `ast` helper `gte`. -/
def gteE (a b : Expr) : Expr := binE BinOpKind.gte a b

/-- Modelled from the spec: `ast` helper `lt`. -/
def ltE (a b : Expr) : Expr := binE BinOpKind.lt a b

/-- Modelled from the spec: `ast` helper `lte`. -/
def lteE (a b : Expr) : Expr := binE BinOpKind.lte a b

/-- Modelled from the spec: `ast` helper `call` (callee is any expression). -/
def call (callee : Expr) (args : List Expr) : Expr := Expr.Call callee args

/-- Modelled from the spec: `ast` helper `call_fun` — a call whose callee is a
function reference (§4.5 "else produce `Call(function_reference, args)`"). -/
def call_fun (f : RefFun) (args : List Expr) : Expr := Expr.Call (Expr.FunRef f) args

/-- Modelled from the spec: `ast` helper `comment`. -/
def comment (text : String) : Statement := Statement.Comment text

/-- Modelled from the spec: `ast` helper `stmt` (expression statement). -/
def stmt (e : Expr) : Statement := Statement.ExprStmt e

/-- Modelled from the spec: `ast` helper `array` (bracket access). -/
def array (receiver index : Expr) : Expr := Expr.ArrayIndex receiver index

end Ast

/-- An inline bool value (`ValBool`, `types.rs`). -/
structure ValBool where
  val : Bool
deriving DecidableEq, Repr

/-- An object field definition (`ObjField`, `types.rs`). -/
structure ObjField where
  name : RefString
  t : RefType
deriving DecidableEq, Repr

/-- An object method definition (`ObjProto`, `types.rs`). -/
structure ObjProto where
  name : RefString
  findex : RefFun
  pindex : Int
deriving DecidableEq, Repr

/-- An enum variant definition (`EnumConstruct`, `types.rs`). -/
structure EnumConstruct where
  name : RefString
  params : List RefType
deriving DecidableEq, Repr

/-- Common type for `Type::Fun` and `Type::Method` (`TypeFun`, `types.rs`). -/
structure TypeFun where
  args : List RefType
  ret : RefType
deriving DecidableEq, Repr

/-- Common type for `Type::Obj` and `Type::Struct` (`TypeObj`, `types.rs`).
The `bindings` HashMap is modelled as an association list. -/
structure TypeObj where
  name : RefString
  super_ : Option RefType
  global : RefGlobal
  own_fields : List ObjField
  protos : List ObjProto
  bindings : List (RefField × RefFun)
  fields : List ObjField
deriving DecidableEq, Repr

/-- The hashlink type system (`Type` in `types.rs`; named `Ty` because `Type`
is reserved in Lean). -/
inductive Ty where
  | Void
  | UI8
  | UI16
  | I32
  | I64
  | F32
  | F64
  | Bool
  | Bytes
  | Dyn
  | Fun (f : TypeFun)
  | Obj (o : TypeObj)
  | Array
  | TypeT
  | Ref (t : RefType)
  | Virtual (fields : List ObjField)
  | DynObj
  | Abstract (name : RefString)
  | Enum (name : RefString) (global : RefGlobal) (constructs : List EnumConstruct)
  | Null (t : RefType)
  | Method (f : TypeFun)
  | Struct (o : TypeObj)
  | Packed (t : RefType)
deriving DecidableEq, Repr

/-- A native function reference (`Native`, `types.rs`). -/
structure Native where
  name : RefString
  lib : RefString
  t : RefType
  findex : RefFun
deriving DecidableEq, Repr

/-- Opcodes of the bytecode, with the fields `lib.rs` destructures. The source
enum (`opcodes.rs`) is not among the given files, so the variant list models
exactly the opcodes the lifter matches; `other` stands for every remaining
variant, which the lifter's catch-all arm ignores. Jump offsets are i32
(modelled as `Int`); `Switch` offsets are modelled as `Nat`. -/
inductive Opcode where
  | Mov (dst src : Reg)
  | Int (dst : Reg) (ptr : RefInt)
  | Float (dst : Reg) (ptr : RefFloat)
  | Bool (dst : Reg) (value : ValBool)
  | String (dst : Reg) (ptr : RefString)
  | Null (dst : Reg)
  | Add (dst a b : Reg)
  | Sub (dst a b : Reg)
  | Mul (dst a b : Reg)
  | SDiv (dst a b : Reg)
  | UDiv (dst a b : Reg)
  | SMod (dst a b : Reg)
  | UMod (dst a b : Reg)
  | Shl (dst a b : Reg)
  | SShr (dst a b : Reg)
  | UShr (dst a b : Reg)
  | And (dst a b : Reg)
  | Or (dst a b : Reg)
  | Xor (dst a b : Reg)
  | Neg (dst src : Reg)
  | Not (dst src : Reg)
  | Incr (dst : Reg)
  | Decr (dst : Reg)
  | Call0 (dst : Reg) (f : RefFun)
  | Call1 (dst : Reg) (f : RefFun) (arg0 : Reg)
  | Call2 (dst : Reg) (f : RefFun) (arg0 arg1 : Reg)
  | Call3 (dst : Reg) (f : RefFun) (arg0 arg1 arg2 : Reg)
  | Call4 (dst : Reg) (f : RefFun) (arg0 arg1 arg2 arg3 : Reg)
  | CallN (dst : Reg) (f : RefFun) (args : List Reg)
  | CallMethod (dst : Reg) (field : RefField) (args : List Reg)
  | CallThis (dst : Reg) (field : RefField) (args : List Reg)
  | CallClosure (dst : Reg) (f : Reg) (args : List Reg)
  | StaticClosure (dst : Reg) (f : RefFun)
  | InstanceClosure (dst : Reg) (obj : Reg) (f : RefFun)
  | GetGlobal (dst : Reg) (global : RefGlobal)
  | Field (dst obj : Reg) (field : RefField)
  | SetField (obj : Reg) (field : RefField) (src : Reg)
  | GetThis (dst : Reg) (field : RefField)
  | SetThis (field : RefField) (src : Reg)
  | DynGet (dst obj : Reg) (field : RefString)
  | DynSet (obj : Reg) (field : RefString) (src : Reg)
  | JTrue (cond : Reg) (offset : Int)
  | JFalse (cond : Reg) (offset : Int)
  | JNull (reg : Reg) (offset : Int)
  | JNotNull (reg : Reg) (offset : Int)
  | JSLt (a b : Reg) (offset : Int)
  | JSGte (a b : Reg) (offset : Int)
  | JSGt (a b : Reg) (offset : Int)
  | JSLte (a b : Reg) (offset : Int)
  | JULt (a b : Reg) (offset : Int)
  | JUGte (a b : Reg) (offset : Int)
  | JEq (a b : Reg) (offset : Int)
  | JNotEq (a b : Reg) (offset : Int)
  | JAlways (offset : Int)
  | ToDyn (dst src : Reg)
  | ToSFloat (dst src : Reg)
  | ToUFloat (dst src : Reg)
  | ToInt (dst src : Reg)
  | SafeCast (dst src : Reg)
  | UnsafeCast (dst src : Reg)
  | ToVirtual (dst src : Reg)
  | Label
  | Ret (ret : Reg)
  | Throw (exc : Reg)
  | Rethrow (exc : Reg)
  | Switch (reg : Reg) (offsets : List Nat) (end_ : Nat)
  | Trap (exc : Reg) (offset : Int)
  | EndTrap (exc : Reg)
  | GetArray (dst array index : Reg)
  | SetArray (array index src : Reg)
  | New (dst : Reg)
  | ArraySize (dst array : Reg)
  | Ref (dst src : Reg)
  | Unref (dst src : Reg)
  | Setref (dst value : Reg)
  | EnumAlloc (dst : Reg) (construct : RefEnumConstruct)
  | MakeEnum (dst : Reg) (construct : RefEnumConstruct) (args : List Reg)
  | EnumIndex (dst value : Reg)
  | EnumField (dst value : Reg) (construct : RefEnumConstruct) (field : RefField)
  | SetEnumField (value : Reg) (field : RefField) (src : Reg)
  | GetMem (dst bytes index : Reg)
  | SetMem (bytes index src : Reg)
  | RefData (dst src : Reg)
  | other
deriving Repr

/-- A function definition with its code (`Function`, `types.rs`). -/
structure Function where
  name : Option RefString
  t : RefType
  findex : RefFun
  regs : List RefType
  ops : List Opcode
  debug_info : Option (List (Nat × Nat))
  assigns : Option (List (RefString × Nat))
  parent : Option RefType
deriving Repr

/-- Index reference to either a function or a native (`RefFunKnown`). -/
inductive RefFunKnown where
  | Fun (x : Nat)
  | Native (x : Nat)
deriving DecidableEq, Repr

/-- A constant definition (`ConstantDef`, `types.rs`). -/
structure ConstantDef where
  global : RefGlobal
  fields : List Nat
deriving DecidableEq, Repr

/-- The parsed bytecode module: the read-only pools the lifter consumes. The
`Bytecode` struct itself is declared outside the given files; its fields are
exactly those `lib.rs`, `types.rs` and `fmt.rs` read. `globals_initializers`
(a HashMap) is modelled as an association list. -/
structure Bytecode where
  ints : List Int
  floats : List F64
  strings : List String
  types : List Ty
  globals : List RefType
  natives : List Native
  functions : List Function
  findexes : List RefFunKnown
  globals_initializers : List (RefGlobal × Nat)
  constants : Option (List ConstantDef)
deriving Repr

/-- `RefInt::resolve` (`types.rs`): `ints[self.0]`, panics when out of bounds. -/
def RefInt.resolve (r : RefInt) (ints : List Int) : Except Panic Int :=
  listIdx ints r.val

/-- `RefFloat::resolve` (`types.rs`). -/
def RefFloat.resolve (r : RefFloat) (floats : List F64) : Except Panic F64 :=
  listIdx floats r.val

/-- `RefString::resolve` (`types.rs`): `strings[self.0]`. -/
def RefString.resolve (r : RefString) (strings : List String) : Except Panic String :=
  listIdx strings r.val

/-- `Type::get_type_obj` (`types.rs`). -/
def Ty.get_type_obj : Ty → Option TypeObj
  | Ty.Obj obj => some obj
  | Ty.Struct obj => some obj
  | _ => none

/-- `RefType::resolve` (`types.rs`): `types[self.0]`. -/
def RefType.resolve (r : RefType) (types : List Ty) : Except Panic Ty :=
  listIdx types r.val

/-- `RefType::is_void` (`types.rs`): the void type is type index 0. -/
def RefType.is_void (r : RefType) : Bool := r.val == 0

/-- `RefType::resolve_as_fun` (`types.rs`). -/
def RefType.resolve_as_fun (r : RefType) (types : List Ty) : Except Panic (Option TypeFun) := do
  match ← r.resolve types with
  | Ty.Fun f => pure (some f)
  | Ty.Method f => pure (some f)
  | _ => pure none

/-- `RefType::resolve_as_obj` (`types.rs`). -/
def RefType.resolve_as_obj (r : RefType) (types : List Ty) : Except Panic (Option TypeObj) := do
  pure (← r.resolve types).get_type_obj

/-- `RefType::method` (`types.rs`): resolves as an object and indexes its
`protos` (the indexing panics when out of bounds, inside the `map`). -/
def RefType.method (r : RefType) (meth : Nat) (code : Bytecode) :
    Except Panic (Option ObjProto) := do
  match ← r.resolve_as_obj code.types with
  | some obj => do pure (some (← listIdx obj.protos meth))
  | none => pure none

/-- `TypeObj::get_static_type` (`types.rs`): resolve the type's global minus
one through the globals pool. -/
def TypeObj.get_static_type (obj : TypeObj) (ctx : Bytecode) :
    Except Panic (Option TypeObj) := do
  if obj.global.val > 0 then
    let rt ← listIdx ctx.globals (obj.global.val - 1)
    rt.resolve_as_obj ctx.types
  else
    pure none

/-- `Function::regtype` (`types.rs`): `self.regs[reg.0]`. -/
def Function.regtype (f : Function) (reg : Reg) : Except Panic RefType :=
  listIdx f.regs reg.val

/-- `Function::ty` (`types.rs`): resolve the signature, `expect`ing a function
type. -/
def Function.ty (f : Function) (code : Bytecode) : Except Panic TypeFun := do
  match ← f.t.resolve_as_fun code.types with
  | some tf => pure tf
  | none => Except.error (Panic.panic "Unknown type ?")

/-- `Function::name` (`types.rs`): resolve the optional name. -/
def Function.nameStr (f : Function) (code : Bytecode) : Except Panic (Option String) := do
  match f.name with
  | some n => do pure (some (← n.resolve code.strings))
  | none => pure none

/-- `Function::name_default` (`types.rs`). -/
def Function.name_default (f : Function) (code : Bytecode) : Except Panic String := do
  pure ((← f.nameStr code).getD "_")

/-- `Function::arg_name` (`types.rs`): the `pos`-th assigns entry whose opcode
index is 0. -/
def Function.arg_name (f : Function) (code : Bytecode) (pos : Nat) :
    Except Panic (Option String) := do
  match f.assigns with
  | none => pure none
  | some a =>
      match (a.filter (fun p => p.2 == 0)).get? pos with
      | some (s, _) => do pure (some (← s.resolve code.strings))
      | none => pure none

/-- `Function::var_name` (`types.rs`): the first assigns entry with
`pos + 1 == i`. -/
def Function.var_name (f : Function) (code : Bytecode) (pos : Nat) :
    Except Panic (Option String) := do
  match f.assigns with
  | none => pure none
  | some a =>
      match a.find? (fun p => pos + 1 == p.2) with
      | some (s, _) => do pure (some (← s.resolve code.strings))
      | none => pure none

/-- `Function::is_method` (`types.rs`): the function has a parent type and its
first register has the parent type. -/
def Function.is_method (f : Function) : Bool :=
  match f.parent with
  | some parent => !f.regs.isEmpty && f.regs.get? 0 == some parent
  | none => false

/-- `RefFunKnown::resolve_as_fn` (`types.rs`): only `Fun` resolves, by indexing
the functions pool. -/
def RefFunKnown.resolve_as_fn (k : RefFunKnown) (code : Bytecode) :
    Except Panic (Option Function) := do
  match k with
  | RefFunKnown.Fun x => do pure (some (← listIdx code.functions x))
  | RefFunKnown.Native _ => pure none

/-- `RefFun::resolve_as_fn` (`types.rs`): `code.findexes[self.0]` then
dispatch. -/
def RefFun.resolve_as_fn (r : RefFun) (code : Bytecode) : Except Panic (Option Function) := do
  (← listIdx code.findexes r.val).resolve_as_fn code

/-- Either a function or a native (`FunPtr<'_>`, `types.rs`), with the
referent held by value. -/
inductive FunPtr where
  | Fun (f : Function)
  | Native (n : Native)
deriving Repr

/-- `RefFunKnown::resolve` (`types.rs`). -/
def RefFunKnown.resolveK (k : RefFunKnown) (code : Bytecode) : Except Panic FunPtr := do
  match k with
  | RefFunKnown.Fun x => do pure (FunPtr.Fun (← listIdx code.functions x))
  | RefFunKnown.Native x => do pure (FunPtr.Native (← listIdx code.natives x))

/-- `RefFun::resolve` (`types.rs`). -/
def RefFun.resolve (r : RefFun) (code : Bytecode) : Except Panic FunPtr := do
  (← listIdx code.findexes r.val).resolveK code

/-- `Native::ty` (`types.rs`). -/
def Native.ty (n : Native) (code : Bytecode) : Except Panic TypeFun := do
  match ← n.t.resolve_as_fun code.types with
  | some tf => pure tf
  | none => Except.error (Panic.panic "Unknown type ?")

/-- `RefFun::ty` (`types.rs`): the signature of the resolved function or
native. -/
def RefFun.ty (r : RefFun) (code : Bytecode) : Except Panic TypeFun := do
  match ← r.resolve code with
  | FunPtr.Fun f => f.ty code
  | FunPtr.Native n => n.ty code

/-- `Function::display_id` (`fmt.rs`): `{name_default}@{findex}`. -/
def Function.display_id (f : Function) (code : Bytecode) : Except Panic String := do
  pure ((← f.name_default code) ++ "@" ++ toString f.findex.val)

/-- `Native::display_id` (`fmt.rs`): `{lib}/{name}@{findex}`. -/
def Native.display_id (n : Native) (code : Bytecode) : Except Panic String := do
  pure ((← n.lib.resolve code.strings) ++ "/" ++ (← n.name.resolve code.strings)
    ++ "@" ++ toString n.findex.val)

/-- `RefFun::display_id` (`fmt.rs`): dispatch on the resolved pointer. -/
def RefFun.display_id (r : RefFun) (code : Bytecode) : Except Panic String := do
  match ← r.resolve code with
  | FunPtr.Fun f => f.display_id code
  | FunPtr.Native n => n.display_id code

/-- `RefString::display` (`fmt.rs`): resolve to an owned string. -/
def RefString.display (r : RefString) (code : Bytecode) : Except Panic String :=
  r.resolve code.strings

/-- `RefField::display_obj` (`fmt.rs`): the field name through the parent
type, falling back to `field{i}`; `Virtual` indexes its field list (panics
out of bounds). -/
def RefField.display_obj (fld : RefField) (parent : Ty) (code : Bytecode) :
    Except Panic String := do
  match parent.get_type_obj with
  | some obj =>
      if fld.val < obj.fields.length then do
        (← listIdx obj.fields fld.val).name.display code
      else
        pure ("field" ++ toString fld.val)
  | none =>
      match parent with
      | Ty.Virtual fields => do (← listIdx fields fld.val).name.display code
      | _ => pure ("field" ++ toString fld.val)

namespace Ast

/-- Modelled from the spec: `ast::field` — dotted access with the field name
resolved through the receiver register's type (§4.6), using the same
resolution as `RefField::display_obj` in `fmt.rs`. -/
def field (receiver : Expr) (rt : RefType) (fld : RefField) (code : Bytecode) :
    Except Panic Expr := do
  let ty ← rt.resolve code.types
  pure (Expr.Field receiver (← fld.display_obj ty code))

/-- Modelled from the spec: `ast` helper `cst_refstring` — a string literal
resolved from the string pool. -/
def cst_refstring (r : RefString) (code : Bytecode) : Except Panic Expr := do
  pure (cst_string (← r.resolve code.strings))

end Ast

/-- Modelled from the spec: §4.1 — the kind tag of a scope frame. A `Loop`
records its header opcode index and a mutable loop condition (initially
`Unknown`); an `Else` carries the converted `If`'s condition and then-branch;
a `SwitchK` carries the scrutinee, the absolute case targets and the already
closed cases. -/
inductive ScopeKind where
  | Root
  | Loop (header : Nat) (cond : Expr)
  | If (cond : Expr)
  | Else (cond : Expr) (thenStmts : List Statement)
  | SwitchK (scrutinee : Expr) (caseTargets : List Nat) (doneCases : List (List Statement))
  | Try
deriving Repr

/-- Modelled from the spec: §4.1 — one scope frame: its kind, the absolute
opcode index at which it ends (`none` for `Root` and for loops, which close
through `end_last_loop`), and the accumulated statements. -/
structure Scope where
  kind : ScopeKind
  endAt : Option Nat
  stmts : List Statement
deriving Repr

/-- Modelled from the spec: §4.1 — the structured statement a non-root scope
folds into when it closes. -/
def Scope.toStatement : Scope → Statement
  | ⟨ScopeKind.Root, _, stmts⟩ => Statement.If (Expr.Unknown "root") stmts none
  | ⟨ScopeKind.Loop _ cond, _, stmts⟩ => Statement.While cond stmts
  | ⟨ScopeKind.If cond, _, stmts⟩ => Statement.If cond stmts none
  | ⟨ScopeKind.Else cond thenS, _, stmts⟩ => Statement.If cond thenS (some stmts)
  | ⟨ScopeKind.SwitchK scrut _ done_, _, stmts⟩ => Statement.Switch scrut (done_ ++ [stmts])
  | ⟨ScopeKind.Try, _, stmts⟩ => Statement.Try stmts

/-- Modelled from the spec: §4.1 — the scope stack. The Rust `Vec` has the
root first and the innermost scope last; here the list holds the innermost
scope first (the `Vec` mirrored), and `cursor` counts the opcodes consumed so
far so a relative end offset becomes absolute at push time. -/
structure Scopes where
  cursor : Nat
  scopes : List Scope
deriving Repr

namespace Scopes

/-- Modelled from the spec: a fresh scope stack holds the root scope only. -/
def new : Scopes := ⟨0, [⟨ScopeKind.Root, none, []⟩]⟩

/-- Append a statement to the innermost scope (head of the mirrored list). -/
def appendToHead (s : Statement) : List Scope → List Scope
  | [] => []
  | sc :: rest => { sc with stmts := sc.stmts ++ [s] } :: rest

/-- Modelled from the spec: §4.1 `push_stmt` — append to the innermost
scope. -/
def push_stmt (sc : Scopes) (s : Statement) : Scopes :=
  { sc with scopes := appendToHead s sc.scopes }

/-- Modelled from the spec: §4.1 `advance` folding — close every innermost
scope whose recorded end offset equals the just-consumed cursor, appending the
folded statement to the enclosing scope. -/
def advanceFold (cur : Nat) : List Scope → List Scope
  | [] => []
  | sc :: rest =>
      if sc.endAt = some cur then
        advanceFold cur (appendToHead sc.toStatement rest)
      else sc :: rest
termination_by l => l.length
decreasing_by cases rest <;> simp [appendToHead]

/-- Modelled from the spec: §4.1 `advance` — called once per opcode; moves the
cursor and folds finished scopes. -/
def advance (sc : Scopes) : Scopes :=
  { cursor := sc.cursor + 1, scopes := advanceFold (sc.cursor + 1) sc.scopes }

/-- Modelled from the spec: §4.1 `push_loop` — open a loop scope with the
given header and an `Unknown` condition. -/
def push_loop (sc : Scopes) (header : Nat) : Scopes :=
  { sc with scopes := ⟨ScopeKind.Loop header (Expr.Unknown "no condition"), none, []⟩ :: sc.scopes }

/-- Modelled from the spec: §4.1 `push_if` — open an if scope ending `off`
opcodes from the current cursor. -/
def push_if (sc : Scopes) (off : Int) (cond : Expr) : Scopes :=
  { sc with scopes := ⟨ScopeKind.If cond, some ((sc.cursor : Int) + off).toNat, []⟩ :: sc.scopes }

/-- Modelled from the spec: §4.1 `push_else` — convert the innermost `If` into
an if/else and begin accumulating the else branch; without an innermost `If`
nothing changes (the caller checks `last_is_if` first). -/
def push_else (sc : Scopes) (off : Int) : Scopes :=
  match sc.scopes with
  | ⟨ScopeKind.If cond, _, stmts⟩ :: rest =>
      { sc with scopes :=
          ⟨ScopeKind.Else cond stmts, some ((sc.cursor : Int) + off).toNat, []⟩ :: rest }
  | _ => sc

/-- Modelled from the spec: §4.1 `push_switch` — open a switch scope with
absolute case targets; the default case is the implicit first segment. -/
def push_switch (sc : Scopes) (off : Int) (scrutinee : Expr) (caseTargets : List Nat) : Scopes :=
  { sc with scopes :=
      ⟨ScopeKind.SwitchK scrutinee caseTargets [], some ((sc.cursor : Int) + off).toNat, []⟩
        :: sc.scopes }

/-- Modelled from the spec: §4.1 `push_switch_case` — close the current case
accumulator of the innermost switch and start a new one. -/
def push_switch_case (sc : Scopes) (_pos : Nat) : Scopes :=
  match sc.scopes with
  | ⟨ScopeKind.SwitchK scrut targets done_, e, stmts⟩ :: rest =>
      { sc with scopes := ⟨ScopeKind.SwitchK scrut targets (done_ ++ [stmts]), e, []⟩ :: rest }
  | _ => sc

/-- Modelled from the spec: §4.1 `push_try` — open a try scope. -/
def push_try (sc : Scopes) (off : Int) : Scopes :=
  { sc with scopes := ⟨ScopeKind.Try, some ((sc.cursor : Int) + off).toNat, []⟩ :: sc.scopes }

/-- Modelled from the spec: §4.1 `end_last_loop` — when the innermost scope is
a loop, pop it and return the `While` statement built from its condition and
body; otherwise `none` (the caller panics). -/
def end_last_loop (sc : Scopes) : Option (Statement × Scopes) :=
  match sc.scopes with
  | ⟨ScopeKind.Loop _ cond, _, stmts⟩ :: rest =>
      some (Statement.While cond stmts, { sc with scopes := rest })
  | _ => none

/-- Modelled from the spec: §4.1 `last_loop_start` — the header of the
innermost open loop, if any. -/
def last_loop_start (sc : Scopes) : Option Nat :=
  sc.scopes.findSome? fun s =>
    match s.kind with
    | ScopeKind.Loop header _ => some header
    | _ => none

/-- Modelled from the spec: §4.1 `last_loop_cond_mut` (read side) — the
condition of the innermost open loop, if any. -/
def last_loop_cond (sc : Scopes) : Option Expr :=
  sc.scopes.findSome? fun s =>
    match s.kind with
    | ScopeKind.Loop _ cond => some cond
    | _ => none

/-- Modelled from the spec: §4.1 `last_loop_cond_mut` (write side) — replace
the condition of the innermost open loop. -/
def setLoopCond (cond : Expr) : List Scope → List Scope
  | [] => []
  | sc :: rest =>
      match sc.kind with
      | ScopeKind.Loop header _ => { sc with kind := ScopeKind.Loop header cond } :: rest
      | _ => sc :: setLoopCond cond rest

/-- Modelled from the spec: §4.1 `last_is_if` — the innermost scope is an
`If`. -/
def last_is_if (sc : Scopes) : Bool :=
  match sc.scopes with
  | ⟨ScopeKind.If _, _, _⟩ :: _ => true
  | _ => false

/-- Modelled from the spec: §4.1 `last_is_switch_ctx` — the case targets of
the innermost scope when it is a switch. -/
def last_is_switch_ctx (sc : Scopes) : Option (List Nat) :=
  match sc.scopes with
  | ⟨ScopeKind.SwitchK _ targets _, _, _⟩ :: _ => some targets
  | _ => none

/-- Modelled from the spec: §4.1 `has_scopes` — true iff any non-root scope is
open. -/
def has_scopes (sc : Scopes) : Bool :=
  sc.scopes.any fun s =>
    match s.kind with
    | ScopeKind.Root => false
    | _ => true

/-- Modelled from the spec: the statements accumulated in the root scope,
taken at the end of the lift. -/
def statements (sc : Scopes) : List Statement :=
  match sc.scopes.getLast? with
  | some root => root.stmts
  | none => []

end Scopes

/-- Pending multi-opcode expression context (`ExprCtx`, `lib.rs`). -/
inductive ExprCtx where
  | Constructor (reg : Reg) (pos : Nat)
  | Anonymous (pos : Nat) (fields : List (RefField × Expr)) (remaining : Nat)
deriving Repr

/-- The per-function working memory (`DecompilerState`, `lib.rs`). `reg_state`
(a HashMap) and `seen` (a HashSet) are modelled as lists; `emitted` is pure
instrumentation recording every statement passed to `push_stmt`, in order — it
changes no behaviour and exists so theorems can speak about what the lifter
emits regardless of scope folding. -/
structure DecompilerState where
  scopes : Scopes
  reg_state : List (Reg × Expr)
  expr_ctx : List ExprCtx
  seen : List String
  emitted : List Statement
deriving Repr

namespace DecompilerState

/-- `DecompilerState::push_stmt` (`lib.rs`): push onto the scope stack (and
record the emission). -/
def push_stmt (st : DecompilerState) (s : Statement) : DecompilerState :=
  { st with scopes := st.scopes.push_stmt s, emitted := st.emitted ++ [s] }

/-- `DecompilerState::expr` (`lib.rs`): the current expression of a register,
defaulting to `Unknown "missing expr"`. -/
def expr (st : DecompilerState) (reg : Reg) : Expr :=
  (lookupA st.reg_state reg).getD (Expr.Unknown "missing expr")

/-- `DecompilerState::args_expr` (`lib.rs`). -/
def args_expr (st : DecompilerState) (args : List Reg) : List Expr :=
  args.map st.expr

/-- `DecompilerState::push_expr` (`lib.rs`): store inline when the opcode has
no debug variable name; otherwise materialize a named variable and emit an
assignment whose `declaration` flag records whether the name was new. -/
def push_expr (code : Bytecode) (f : Function) (i : Nat) (dst : Reg) (e : Expr)
    (st : DecompilerState) : Except Panic DecompilerState := do
  match ← f.var_name code i with
  | none => pure { st with reg_state := insertA st.reg_state dst e }
  | some name =>
      let declaration := !(st.seen.contains name)
      let st := { st with
        reg_state := insertA st.reg_state dst (Expr.Variable dst (some name)),
        seen := seenInsert st.seen name }
      pure (st.push_stmt (Statement.Assign declaration (Expr.Variable dst (some name)) e))

/-- The `new` constructor's argument loop (`lib.rs` lines 69–76): each
register index `i` in `start..args.len()` is pre-bound to
`Variable(Reg(i), arg_name(i - start))` and a present name enters `seen`. -/
def initArgs (code : Bytecode) (f : Function) (start : Nat) :
    List Nat → List (Reg × Expr) × List String →
    Except Panic (List (Reg × Expr) × List String)
  | [], acc => pure acc
  | i :: rest, (rs, seen) => do
      let name ← f.arg_name code (i - start)
      let rs := insertA rs (Reg.mk i) (Expr.Variable (Reg.mk i) name)
      let seen := match name with | some n => seenInsert seen n | none => seen
      initArgs code f start rest (rs, seen)

/-- The `This` condition of `DecompilerState::new` (`lib.rs` lines 60–64):
`f.is_method() || f.name.map(|n| n.resolve(...) == "__constructor__")
.unwrap_or(false)`, with Rust's short-circuit preserved (the name is only
resolved when `is_method()` is false). -/
def isThisCond (code : Bytecode) (f : Function) : Except Panic Bool :=
  if f.is_method then pure true
  else
    match f.name with
    | some n => do pure ((← n.resolve code.strings) == "__constructor__")
    | none => pure false

/-- `DecompilerState::new` (`lib.rs`): register 0 becomes `This` when the
function is a method or its resolved name is `__constructor__` (short-circuit:
the name is only resolved when `is_method()` is false); the remaining argument
registers are pre-bound to named variables whose names seed `seen`. -/
def new (code : Bytecode) (f : Function) : Except Panic DecompilerState := do
  let isThis ← isThisCond code f
  let rs0 : List (Reg × Expr) := if isThis then [(Reg.mk 0, Expr.This)] else []
  let start := if isThis then 1 else 0
  let tf ← f.ty code
  let (rs, seen) ← initArgs code f start
      (List.range' start (tf.args.length - start)) (rs0, [])
  pure { scopes := Scopes.new, reg_state := rs, expr_ctx := [], seen := seen,
         emitted := [] }

end DecompilerState

/-- The absolute target of a jump at position `j` with relative offset
`offset`: Rust `(j as i32 + offset + 1) as usize` (i32 wrapping arithmetic,
then reinterpretation as usize). -/
def jumpTarget (j : Nat) (offset : Int) : Nat :=
  asUsize (asI32 ((j : Int) + offset + 1))

/-- One opcode of the forward scan of the `JAlways` negative-offset arm: a
`JAlways` at position `j` targeting exactly the loop header. -/
def isSiblingJump (loop_start : Nat) (j : Nat) (o : Opcode) : Bool :=
  match o with
  | Opcode.JAlways off => jumpTarget j off == loop_start
  | _ => false

/-- The scan itself, walking a suffix of the opcode list while tracking the
absolute position `j` of its head. -/
def scanSibling (loop_start : Nat) : Nat → List Opcode → Bool
  | _, [] => false
  | j, o :: rest => isSiblingJump loop_start j o || scanSibling loop_start (j + 1) rest

/-- The forward scan of the `JAlways` negative-offset arm (`lib.rs` lines
231–238): is there, at or after position `start`, another `JAlways` whose
target is the loop header `loop_start`? (Rust: `iter().enumerate().skip(start)`
with `(j as i32 + offset + 1) as usize == loop_start`.) -/
def hasLoopSibling (ops : List Opcode) (start : Nat) (loop_start : Nat) : Bool :=
  scanSibling loop_start start (ops.drop start)

/-- `DecompilerState::push_call` (`lib.rs` lines 124–159). When the topmost
pending context is a `Constructor` for the call's first argument register, the
call folds into a `ConstructorCall` pushed at the recorded position and the
context is popped; when it is a `Constructor` for a different register,
nothing at all happens; otherwise a comment and the call are emitted. -/
def push_call (code : Bytecode) (f : Function) (i : Nat) (dst : Reg) (fn : RefFun)
    (args : List Reg) (st : DecompilerState) : Except Panic DecompilerState := do
  match st.expr_ctx.getLast? with
  | some (ExprCtx.Constructor reg pos) => do
      let a0 ← listIdx args 0
      if reg = a0 then do
        let rt ← f.regtype reg
        let st ← st.push_expr code f pos reg
          (Expr.Constructor rt (st.args_expr (args.drop 1)))
        pure { st with expr_ctx := st.expr_ctx.dropLast }
      else
        pure st
  | _ => do
      let cmt ← fn.display_id code
      let st := st.push_stmt (Ast.comment cmt)
      let callE ←
        match ← fn.resolve_as_fn code with
        | some func =>
            if func.is_method then do
              let a0 ← listIdx args 0
              let nR ← match func.name with
                | some n => pure n
                | none => Except.error (Panic.panic "called unwrap on None")
              let mname ← nR.resolve code.strings
              pure (Ast.call (Expr.Field (st.expr a0) mname) (st.args_expr (args.drop 1)))
            else
              pure (Ast.call_fun fn (st.args_expr args))
        | none => pure (Ast.call_fun fn (st.args_expr args))
      let tf ← fn.ty code
      if tf.ret.is_void then
        pure (st.push_stmt (Ast.stmt callE))
      else
        st.push_expr code f i dst callE

/-- `DecompilerState::push_jmp` (`lib.rs` lines 162–181): a positive-offset
conditional jump is either the exit condition of a loop (when it targets a
backward `JAlways`) or opens an `If` scope. -/
def push_jmp (code : Bytecode) (f : Function) (i : Nat) (offset : Int) (cond : Expr)
    (st : DecompilerState) : Except Panic DecompilerState := do
  if offset > 0 then do
    let op ← listIdx f.ops (i + offset.toNat)
    let isBack := match op with
      | Opcode.JAlways off2 => decide (off2 < 0)
      | _ => false
    if isBack then
      match st.scopes.last_loop_cond with
      | some (Expr.Unknown _) =>
          pure { st with scopes :=
            { st.scopes with scopes := Scopes.setLoopCond cond st.scopes.scopes } }
      | some _ => pure { st with scopes := st.scopes.push_if (offset + 1) cond }
      | none => pure { st with scopes := st.scopes.push_if (offset + 1) cond }
    else
      pure { st with scopes := st.scopes.push_if (offset + 1) cond }
  else
    pure st

/-- One iteration of the lifter's dispatch loop (`decompile_code`'s `match`,
`lib.rs` lines 193–777), for the opcode `o` at position `i`. `recur` is the
recursive invocation used to lift closure bodies. The `advance()` call at the
end of each iteration is performed by the loop, not here. Rust `usize`
subtraction overflow (the `remaining -= 1` of the `SetField` arm) is modelled
as a panic, its debug-build behaviour. -/
def decompStep (code : Bytecode) (f : Function)
    (recur : Function → Except Panic (List Statement))
    (i : Nat) (o : Opcode) (st : DecompilerState) : Except Panic DecompilerState := do
  match o with
  | Opcode.JTrue cond offset => push_jmp code f i offset (Ast.notE (st.expr cond)) st
  | Opcode.JFalse cond offset => push_jmp code f i offset (st.expr cond) st
  | Opcode.JNull reg offset =>
      push_jmp code f i offset (Ast.noteqE (st.expr reg) Ast.cst_null) st
  | Opcode.JNotNull reg offset =>
      push_jmp code f i offset (Ast.eqE (st.expr reg) Ast.cst_null) st
  | Opcode.JSGte a b offset => push_jmp code f i offset (Ast.gtE (st.expr b) (st.expr a)) st
  | Opcode.JUGte a b offset => push_jmp code f i offset (Ast.gtE (st.expr b) (st.expr a)) st
  | Opcode.JSGt a b offset => push_jmp code f i offset (Ast.gteE (st.expr b) (st.expr a)) st
  | Opcode.JSLte a b offset => push_jmp code f i offset (Ast.ltE (st.expr b) (st.expr a)) st
  | Opcode.JSLt a b offset => push_jmp code f i offset (Ast.lteE (st.expr b) (st.expr a)) st
  | Opcode.JULt a b offset => push_jmp code f i offset (Ast.lteE (st.expr b) (st.expr a)) st
  | Opcode.JEq a b offset => push_jmp code f i offset (Ast.noteqE (st.expr a) (st.expr b)) st
  | Opcode.JNotEq a b offset => push_jmp code f i offset (Ast.eqE (st.expr a) (st.expr b)) st
  | Opcode.JAlways offset =>
      if offset < 0 then do
        let loop_start ← match st.scopes.last_loop_start with
          | some ls => pure ls
          | none => Except.error (Panic.panic "Backward jump but we aren't in a loop ?")
        if hasLoopSibling f.ops (i + 1) loop_start then
          pure (st.push_stmt Statement.Continue)
        else
          match st.scopes.end_last_loop with
          | some (w, sc) => pure ({ st with scopes := sc }.push_stmt w)
          | none => Except.error (Panic.panic "Last scope is not a loop !")
      else
        match st.scopes.last_is_switch_ctx with
        | some offsets =>
            match offsets.findIdx? (fun o => o == i) with
            | some pos => pure { st with scopes := st.scopes.push_switch_case pos }
            | none =>
                Except.error (Panic.panic
                  ("no matching offset for switch case (" ++ toString i ++ ")"))
        | none =>
            if (st.scopes.last_loop_start).isSome then do
              let op ← listIdx f.ops (asUsize (asI32 ((i : Int) + offset)))
              match op with
              | Opcode.JAlways off2 =>
                  if off2 < 0 then pure (st.push_stmt Statement.Break) else pure st
              | _ => pure st
            else if st.scopes.last_is_if then
              pure { st with scopes := st.scopes.push_else (offset + 1) }
            else
              pure st
  | Opcode.Switch reg offsets end_ =>
      pure { st with scopes := (st.scopes.push_switch ((end_ : Int) + 1) (st.expr reg)
        (offsets.map (fun o => i + o))) }
  | Opcode.Label => pure { st with scopes := st.scopes.push_loop i }
  | Opcode.Ret ret => do
      let rt ← f.regtype ret
      if st.scopes.has_scopes then
        pure (st.push_stmt (Statement.Return
          (if rt.is_void then none else some (st.expr ret))))
      else if !rt.is_void then
        pure (st.push_stmt (Statement.Return (some (st.expr ret))))
      else
        pure st
  | Opcode.Throw exc => pure (st.push_stmt (Statement.Throw (st.expr exc)))
  | Opcode.Rethrow exc => pure (st.push_stmt (Statement.Throw (st.expr exc)))
  | Opcode.Trap _ offset => pure { st with scopes := st.scopes.push_try (offset + 1) }
  | Opcode.EndTrap _ => pure st
  | Opcode.Int dst ptr => do
      st.push_expr code f i dst (Ast.cst_int (← ptr.resolve code.ints))
  | Opcode.Float dst ptr => do
      st.push_expr code f i dst (Ast.cst_float (← ptr.resolve code.floats))
  | Opcode.Bool dst value => st.push_expr code f i dst (Ast.cst_bool value.val)
  | Opcode.String dst ptr => do
      st.push_expr code f i dst (← Ast.cst_refstring ptr code)
  | Opcode.Null dst => st.push_expr code f i dst Ast.cst_null
  | Opcode.Mov dst src => do
      let e := st.expr src
      let st ← st.push_expr code f i dst e
      let vn ← f.var_name code i
      pure { st with reg_state := insertA st.reg_state src (Expr.Variable dst vn) }
  | Opcode.Add dst a b =>
      st.push_expr code f i dst (Ast.binE BinOpKind.add (st.expr a) (st.expr b))
  | Opcode.Sub dst a b =>
      st.push_expr code f i dst (Ast.binE BinOpKind.sub (st.expr a) (st.expr b))
  | Opcode.Mul dst a b =>
      st.push_expr code f i dst (Ast.binE BinOpKind.mul (st.expr a) (st.expr b))
  | Opcode.SDiv dst a b =>
      st.push_expr code f i dst (Ast.binE BinOpKind.div (st.expr a) (st.expr b))
  | Opcode.UDiv dst a b =>
      st.push_expr code f i dst (Ast.binE BinOpKind.div (st.expr a) (st.expr b))
  | Opcode.SMod dst a b =>
      st.push_expr code f i dst (Ast.binE BinOpKind.mod (st.expr a) (st.expr b))
  | Opcode.UMod dst a b =>
      st.push_expr code f i dst (Ast.binE BinOpKind.mod (st.expr a) (st.expr b))
  | Opcode.Shl dst a b =>
      st.push_expr code f i dst (Ast.binE BinOpKind.shl (st.expr a) (st.expr b))
  | Opcode.SShr dst a b =>
      st.push_expr code f i dst (Ast.binE BinOpKind.shr (st.expr a) (st.expr b))
  | Opcode.UShr dst a b =>
      st.push_expr code f i dst (Ast.binE BinOpKind.shr (st.expr a) (st.expr b))
  | Opcode.And dst a b =>
      st.push_expr code f i dst (Ast.binE BinOpKind.and (st.expr a) (st.expr b))
  | Opcode.Or dst a b =>
      st.push_expr code f i dst (Ast.binE BinOpKind.or (st.expr a) (st.expr b))
  | Opcode.Xor dst a b =>
      st.push_expr code f i dst (Ast.binE BinOpKind.xor (st.expr a) (st.expr b))
  | Opcode.Neg dst src => st.push_expr code f i dst (Ast.negE (st.expr src))
  | Opcode.Not dst src => st.push_expr code f i dst (Ast.notE (st.expr src))
  | Opcode.Incr dst => pure (st.push_stmt (Ast.stmt (Ast.incrE (st.expr dst))))
  | Opcode.Decr dst => pure (st.push_stmt (Ast.stmt (Ast.decrE (st.expr dst))))
  | Opcode.Call0 dst fn => do
      let tf ← fn.ty code
      if tf.ret.is_void then
        pure (st.push_stmt (Ast.stmt (Ast.call_fun fn [])))
      else
        st.push_expr code f i dst (Ast.call_fun fn [])
  | Opcode.Call1 dst fn arg0 => push_call code f i dst fn [arg0] st
  | Opcode.Call2 dst fn arg0 arg1 => push_call code f i dst fn [arg0, arg1] st
  | Opcode.Call3 dst fn arg0 arg1 arg2 => push_call code f i dst fn [arg0, arg1, arg2] st
  | Opcode.Call4 dst fn arg0 arg1 arg2 arg3 =>
      push_call code f i dst fn [arg0, arg1, arg2, arg3] st
  | Opcode.CallN dst fn args =>
      match st.expr_ctx.getLast? with
      | some (ExprCtx.Constructor reg pos) => do
          let a0 ← listIdx args 0
          if reg = a0 then do
            let rt ← f.regtype reg
            st.push_expr code f pos reg (Expr.Constructor rt (st.args_expr (args.drop 1)))
          else
            pure st
      | _ => do
          let cmt ← fn.display_id code
          let st := st.push_stmt (Ast.comment cmt)
          let callE := Ast.call_fun fn (st.args_expr args)
          let tf ← fn.ty code
          if tf.ret.is_void then
            pure (st.push_stmt (Ast.stmt callE))
          else
            st.push_expr code f i dst callE
  | Opcode.CallMethod dst field args => do
      let a0 ← listIdx args 0
      let rt0 ← f.regtype a0
      let fld ← Ast.field (st.expr a0) rt0 field code
      let callE := Ast.call fld (st.args_expr (args.drop 1))
      let isVoid ←
        match ← rt0.method field.val code with
        | some p =>
            match ← p.findex.resolve_as_fn code with
            | some func => do pure (← func.ty code).ret.is_void
            | none => pure false
        | none => pure false
      if isVoid then pure (st.push_stmt (Ast.stmt callE))
      else st.push_expr code f i dst callE
  | Opcode.CallThis dst field args => do
      let r0 ← listIdx f.regs 0
      let method ← match ← r0.method field.val code with
        | some m => pure m
        | none => Except.error (Panic.panic "called unwrap on None")
      let mname ← method.name.resolve code.strings
      let callE := Ast.call (Expr.Field Ast.cst_this mname) (st.args_expr args)
      let isVoid ←
        match ← method.findex.resolve_as_fn code with
        | some func => do pure (← func.ty code).ret.is_void
        | none => pure false
      if isVoid then pure (st.push_stmt (Ast.stmt callE))
      else st.push_expr code f i dst callE
  | Opcode.CallClosure dst fn args => do
      let callE := Ast.call (st.expr fn) (st.args_expr args)
      let rtF ← f.regtype fn
      let isVoid ←
        match ← rtF.resolve_as_fun code.types with
        | some ty => pure ty.ret.is_void
        | none => pure false
      if isVoid then pure (st.push_stmt (Ast.stmt callE))
      else st.push_expr code f i dst callE
  | Opcode.StaticClosure dst fn => do
      let did ← fn.display_id code
      let st := st.push_stmt (Ast.comment ("closure : " ++ did))
      let func ← match ← fn.resolve_as_fn code with
        | some g => pure g
        | none => Except.error (Panic.panic "called unwrap on None")
      let body ← recur func
      st.push_expr code f i dst (Expr.Closure fn body)
  | Opcode.InstanceClosure dst obj fn => do
      let did ← fn.display_id code
      let st := st.push_stmt (Ast.comment ("closure : " ++ did))
      let rtO ← f.regtype obj
      match ← rtO.resolve code.types with
      | Ty.Enum _ _ _ => do
          let func ← match ← fn.resolve_as_fn code with
            | some g => pure g
            | none => Except.error (Panic.panic "called unwrap on None")
          let body ← recur func
          st.push_expr code f i dst (Expr.Closure fn body)
      | _ => do
          let func ← match ← fn.resolve_as_fn code with
            | some g => pure g
            | none => Except.error (Panic.panic "called unwrap on None")
          let nm ← func.nameStr code
          st.push_expr code f i dst (Expr.Field (st.expr obj) (nm.getD "_"))
  | Opcode.GetGlobal dst global => do
      let rt ← f.regtype dst
      if rt.val == 13 then do
        let s ← match lookupA code.globals_initializers global with
          | some x =>
              match code.constants with
              | some constants => do
                  let cd ← listIdx constants x
                  let f0 ← listIdx cd.fields 0
                  listIdx code.strings f0
              | none => Except.error (Panic.panic "called unwrap on None")
          | none => Except.error (Panic.panic "called unwrap on None")
        st.push_expr code f i dst (Ast.cst_string s)
      else
        match ← rt.resolve code.types with
        | Ty.Obj obj => do
            st.push_expr code f i dst (Expr.Variable dst (some (← obj.name.display code)))
        | Ty.Struct obj => do
            st.push_expr code f i dst (Expr.Variable dst (some (← obj.name.display code)))
        | Ty.Enum _ _ _ =>
            st.push_expr code f i dst (Expr.Unknown "unknown enum variant")
        | _ => pure st
  | Opcode.Field dst obj field => do
      let rtO ← f.regtype obj
      st.push_expr code f i dst (← Ast.field (st.expr obj) rtO field code)
  | Opcode.SetField obj field src =>
      match st.expr_ctx.getLast? with
      | some (ExprCtx.Anonymous pos fields remaining) => do
          let st := { st with expr_ctx := st.expr_ctx.dropLast }
          let fields := insertA fields field (st.expr src)
          let remaining ← match remaining with
            | 0 => Except.error (Panic.panic "attempt to subtract with overflow")
            | r + 1 => pure r
          if remaining = 0 then do
            let rtO ← f.regtype obj
            st.push_expr code f pos obj (Expr.Anonymous rtO fields)
          else
            pure { st with expr_ctx := st.expr_ctx ++ [ExprCtx.Anonymous pos fields remaining] }
      | some _ => pure st
      | none => do
          let rtO ← f.regtype obj
          let fldE ← Ast.field (st.expr obj) rtO field code
          pure (st.push_stmt (Statement.Assign false fldE (st.expr src)))
  | Opcode.GetThis dst field => do
      let r0 ← listIdx f.regs 0
      st.push_expr code f i dst (← Ast.field Ast.cst_this r0 field code)
  | Opcode.SetThis field src => do
      let r0 ← listIdx f.regs 0
      let fldE ← Ast.field Ast.cst_this r0 field code
      pure (st.push_stmt (Statement.Assign false fldE (st.expr src)))
  | Opcode.DynGet dst obj field => do
      st.push_expr code f i dst (Ast.array (st.expr obj) (← Ast.cst_refstring field code))
  | Opcode.DynSet obj field src => do
      let v ← Ast.cst_refstring field code
      pure (st.push_stmt (Statement.Assign false (Ast.array (st.expr obj) v) (st.expr src)))
  | Opcode.ToDyn dst src => st.push_expr code f i dst (st.expr src)
  | Opcode.ToSFloat dst src => st.push_expr code f i dst (st.expr src)
  | Opcode.ToUFloat dst src => st.push_expr code f i dst (st.expr src)
  | Opcode.ToInt dst src => st.push_expr code f i dst (st.expr src)
  | Opcode.SafeCast dst src => st.push_expr code f i dst (st.expr src)
  | Opcode.UnsafeCast dst src => st.push_expr code f i dst (st.expr src)
  | Opcode.ToVirtual dst src => st.push_expr code f i dst (st.expr src)
  | Opcode.Ref dst src => st.push_expr code f i dst (st.expr src)
  | Opcode.Unref dst src => st.push_expr code f i dst (st.expr src)
  | Opcode.Setref dst value =>
      pure (st.push_stmt (Statement.Assign false (st.expr dst) (st.expr value)))
  | Opcode.RefData dst src => st.push_expr code f i dst (st.expr src)
  | Opcode.New dst => do
      let rt ← f.regtype dst
      match ← rt.resolve code.types with
      | Ty.Obj _ => pure { st with expr_ctx := st.expr_ctx ++ [ExprCtx.Constructor dst i] }
      | Ty.Struct _ => pure { st with expr_ctx := st.expr_ctx ++ [ExprCtx.Constructor dst i] }
      | Ty.Virtual fields =>
          pure { st with expr_ctx := st.expr_ctx ++ [ExprCtx.Anonymous i [] fields.length] }
      | _ => st.push_expr code f i dst (Expr.Constructor rt [])
  | Opcode.EnumAlloc dst construct => do
      let rt ← f.regtype dst
      st.push_expr code f i dst (Expr.EnumConstr rt construct [])
  | Opcode.MakeEnum dst construct args => do
      let rt ← f.regtype dst
      st.push_expr code f i dst (Expr.EnumConstr rt construct (st.args_expr args))
  | Opcode.EnumIndex dst value =>
      st.push_expr code f i dst (Expr.Field (st.expr value) "constructorIndex")
  | Opcode.EnumField dst value _ field =>
      st.push_expr code f i dst (Expr.Field (st.expr value) (toString field.val))
  | Opcode.SetEnumField value field src =>
      match st.expr value with
      | Expr.Variable _ _ =>
          pure (st.push_stmt (Statement.Assign false
            (Expr.Field (st.expr value) (toString field.val)) (st.expr src)))
      | _ =>
          let st := st.push_stmt (Ast.comment "closure capture")
          pure (st.push_stmt (Statement.Assign false
            (Expr.Field (st.expr value) (toString field.val)) (st.expr src)))
  | Opcode.ArraySize dst array =>
      st.push_expr code f i dst (Expr.Field (st.expr array) "length")
  | Opcode.GetArray dst array index =>
      st.push_expr code f i dst (Ast.array (st.expr array) (st.expr index))
  | Opcode.SetArray array index src =>
      pure (st.push_stmt (Statement.Assign false
        (Ast.array (st.expr array) (st.expr index)) (st.expr src)))
  | Opcode.GetMem dst bytes index =>
      st.push_expr code f i dst (Ast.array (st.expr bytes) (st.expr index))
  | Opcode.SetMem bytes index src =>
      pure (st.push_stmt (Statement.Assign false
        (Ast.array (st.expr bytes) (st.expr index)) (st.expr src)))
  | Opcode.other => pure st

/-- The lifter's main loop (`lib.rs` lines 189–779): dispatch each opcode in
order, calling `Scopes::advance` after every iteration. -/
def decompLoop (code : Bytecode) (f : Function)
    (recur : Function → Except Panic (List Statement)) :
    Nat → List Opcode → DecompilerState → Except Panic DecompilerState
  | _, [], st => pure st
  | i, o :: rest, st => do
      let st ← decompStep code f recur i o st
      decompLoop code f recur (i + 1) rest { st with scopes := st.scopes.advance }

/-- Modelled from the spec: §4.10 post-processing (`post::visit`). The `post`
module is not among the given files; the pass is modelled as the identity
traversal of the statement list (no settled claim depends on the visitors'
rewrites). -/
def postVisit (statements : List Statement) : List Statement := statements

/-- `decompile_code` (`lib.rs` lines 186–796), with an explicit `fuel` bound
on the closure-recursion depth: the Rust function recurses without any bound
when lifting `StaticClosure`/`InstanceClosure` bodies, so a run that would
recurse deeper than `fuel` is modelled by the `outOfFuel` outcome. -/
def decompile_code : Nat → Bytecode → Function → Except Panic (List Statement)
  | 0, _, _ => Except.error Panic.outOfFuel
  | fuel + 1, code, f => do
      let st ← DecompilerState.new code f
      let st ← decompLoop code f (fun g => decompile_code fuel code g) 0 f.ops st
      pure (postVisit st.scopes.statements)

/-- Method of a class (Modelled from the spec: §3, the missing `ast`
module). -/
structure Method where
  fun_ : RefFun
  static_ : Bool
  dynamic : Bool
  statements : List Statement
deriving Repr

/-- Field of a class (Modelled from the spec: §3, the missing `ast`
module). -/
structure ClassField where
  name : String
  static_ : Bool
  ty : RefType
deriving DecidableEq, Repr

/-- Decompiled class (Modelled from the spec: §3, the missing `ast`
module). -/
structure Class where
  name : String
  parent : Option String
  fields : List ClassField
  methods : List Method
deriving Repr

/-- `decompile_function` (`lib.rs` lines 799–806). -/
def decompile_function (fuel : Nat) (code : Bytecode) (f : Function) :
    Except Panic Method := do
  pure { fun_ := f.findex, static_ := true, dynamic := false,
         statements := ← decompile_code fuel code f }

/-- The field loops of `decompile_class` (`lib.rs` lines 812–842): walk the
own-fields in order, skipping every field whose absolute index (own index plus
the number of inherited fields) is a key of the `bindings` map. -/
def classFieldsAux (code : Bytecode) (ty : TypeObj) (static_ : Bool) :
    Nat → List ObjField → Except Panic (List ClassField)
  | _, [] => pure []
  | i, fld :: rest => do
      if (lookupA ty.bindings
          (RefField.mk (i + ty.fields.length - ty.own_fields.length))).isSome then
        classFieldsAux code ty static_ (i + 1) rest
      else do
        let nm ← fld.name.display code
        pure (ClassField.mk nm static_ fld.t :: (← classFieldsAux code ty static_ (i + 1) rest))

/-- The method loops of `decompile_class` over a bindings map. -/
def classBindingMethods (fuel : Nat) (code : Bytecode) (static_ dynamic : Bool)
    (bindings : List (RefField × RefFun)) : Except Panic (List Method) :=
  bindings.mapM fun p => do
    let func ← match ← p.2.resolve_as_fn code with
      | some g => pure g
      | none => Except.error (Panic.panic "called unwrap on None")
    pure (Method.mk p.2 static_ dynamic (← decompile_code fuel code func))

/-- The static-counterpart side of `decompile_class`'s field loop (the
`if let Some(ty) = static_type` block, `lib.rs` lines 827–842). -/
def staticClassFields (code : Bytecode) (static_type : Option TypeObj) :
    Except Panic (List ClassField) :=
  match static_type with
  | some ty => classFieldsAux code ty true 0 ty.own_fields
  | none => pure []

/-- The static-counterpart side of `decompile_class`'s bindings-method loop
(`lib.rs` lines 853–862). -/
def staticBindingMethods (fuel : Nat) (code : Bytecode)
    (static_type : Option TypeObj) : Except Panic (List Method) :=
  match static_type with
  | some ty => classBindingMethods fuel code true false ty.bindings
  | none => pure []

/-- The protos-method loop of `decompile_class` (`lib.rs` lines 863–870). -/
def protoMethods (fuel : Nat) (code : Bytecode) (protos : List ObjProto) :
    Except Panic (List Method) :=
  protos.mapM fun pr => do
    let func ← match ← pr.findex.resolve_as_fn code with
      | some g => pure g
      | none => Except.error (Panic.panic "called unwrap on None")
    pure (Method.mk pr.findex false false (← decompile_code fuel code func))

/-- The parent-name resolution of `decompile_class` (`lib.rs` lines 874–877). -/
def classParent (code : Bytecode) (super_ : Option RefType) :
    Except Panic (Option String) :=
  match super_ with
  | some ty => do
      match ← ty.resolve_as_obj code.types with
      | some t => do pure (some (← t.name.display code))
      | none => pure none
  | none => pure none

/-- `decompile_class` (`lib.rs` lines 809–881): fields are the non-bound
own-fields of the object followed by those of its static counterpart; methods
come from the bindings, the static bindings and the protos. -/
def decompile_class (fuel : Nat) (code : Bytecode) (obj : TypeObj) :
    Except Panic Class := do
  let static_type ← obj.get_static_type code
  let fieldsI ← classFieldsAux code obj false 0 obj.own_fields
  let fieldsS ← staticClassFields code static_type
  let methodsB ← classBindingMethods fuel code false true obj.bindings
  let methodsS ← staticBindingMethods fuel code static_type
  let methodsP ← protoMethods fuel code obj.protos
  let nm ← obj.name.resolve code.strings
  let parent ← classParent code obj.super_
  pure { name := nm, parent := parent, fields := fieldsI ++ fieldsS,
         methods := methodsB ++ methodsS ++ methodsP }

/-! Definitions supporting the claims' statements. -/

/-- Is this statement an `Assign` with `declaration = true` onto a variable
named `n`? -/
def isDeclTrueFor (n : String) : Statement → Bool
  | Statement.Assign true (Expr.Variable _ (some m)) _ => m == n
  | _ => false

/-- Number of `declaration = true` assignments to the name `n` in an emission
trace. -/
def declTrueCount (tr : List Statement) (n : String) : Nat :=
  tr.countP (isDeclTrueFor n)

/-- The invariant tying a `seen` set to an emission trace, relative to the
set `seen0` of names seeded before the first opcode: a name is in `seen` iff
it was seeded or a `declaration = true` assignment to it was emitted; at most
one such assignment exists per name; and none exists for a seeded name. -/
def SeenTraceOk (seen0 seen : List String) (tr : List Statement) : Prop :=
  ∀ n : String,
    (n ∈ seen ↔ (n ∈ seen0 ∨ 0 < declTrueCount tr n)) ∧
    declTrueCount tr n ≤ 1 ∧
    (n ∈ seen0 → declTrueCount tr n = 0)

/-- `SeenTraceOk` read off a lifter state. -/
def SeenTraceInv (seen0 : List String) (st : DecompilerState) : Prop :=
  SeenTraceOk seen0 st.seen st.emitted

/-- Does the lifter recurse on this opcode (closure body lift)? -/
def isClosureOp : Opcode → Bool
  | Opcode.StaticClosure _ _ => true
  | Opcode.InstanceClosure _ _ _ => true
  | _ => false

/-- A function whose opcodes contain no closure constructions: lifting it
never recurses. -/
def ClosureFree (f : Function) : Prop := ∀ o ∈ f.ops, isClosureOp o = false

/-- The fueled model of `decompile_code` terminates on `(code, f)`: some fuel
bound suffices, i.e. the unbounded Rust recursion reaches no deeper than that
bound. -/
def DecompTerminates (code : Bytecode) (f : Function) : Prop :=
  ∃ fuel, decompile_code fuel code f ≠ Except.error Panic.outOfFuel

/-- The specification's description of one side of `decompile_class`'s field
list: the own-fields in declaration order, skipping every own-field whose
absolute field index (own index plus inherited-field count) is a key of the
`bindings` map. Stated with `enumFrom`/`filter`/`mapM` to be compared with the
source-side loop `classFieldsAux`. -/
def classFieldsSpec (code : Bytecode) (ty : TypeObj) (static_ : Bool) :
    Except Panic (List ClassField) :=
  ((ty.own_fields.enumFrom 0).filter fun p =>
      (lookupA ty.bindings
        (RefField.mk (p.1 + ty.fields.length - ty.own_fields.length))).isNone).mapM
    fun p => do pure (ClassField.mk (← p.2.name.display code) static_ p.2.t)

/-! Concrete inputs used by witnesses and counterexamples. -/

/-- A recursion stub for step-level statements: the closure arms are never
reached by the inputs it is used with. -/
def recurStub : Function → Except Panic (List Statement) :=
  fun _ => Except.error Panic.outOfFuel

/-- Example object type `A` with no fields. -/
def objA : TypeObj :=
  ⟨RefString.mk 0, none, RefGlobal.mk 0, [], [], [], []⟩

/-- Example callee with no parent (findex 0, type `(i32) -> i32`). -/
def exF0 : Function :=
  { name := some (RefString.mk 1), t := RefType.mk 5, findex := RefFun.mk 0,
    regs := [RefType.mk 2], ops := [], debug_info := none, assigns := none,
    parent := none }

/-- Example method callee (findex 1): its parent is type 3 (`A`) and its first
register has the parent type, so `is_method()` holds. -/
def exF1 : Function :=
  { name := some (RefString.mk 1), t := RefType.mk 4, findex := RefFun.mk 1,
    regs := [RefType.mk 3], ops := [], debug_info := none, assigns := none,
    parent := some (RefType.mk 3) }

/-- Example bytecode context shared by the witnesses: strings `A`, `f`, `x`;
type 3 is object `A`; functions 0 (plain) and 1 (method). -/
def exCode : Bytecode :=
  { ints := [7], floats := [], strings := ["A", "f", "x"],
    types := [Ty.Void, Ty.Fun ⟨[], RefType.mk 0⟩, Ty.I32, Ty.Obj objA,
      Ty.Fun ⟨[RefType.mk 3], RefType.mk 2⟩, Ty.Fun ⟨[RefType.mk 2], RefType.mk 2⟩,
      Ty.Enum (RefString.mk 0) (RefGlobal.mk 0) []],
    globals := [], natives := [⟨RefString.mk 1, RefString.mk 0, RefType.mk 1, RefFun.mk 2⟩],
    functions := [exF0, exF1],
    findexes := [RefFunKnown.Fun 0, RefFunKnown.Fun 1, RefFunKnown.Native 0],
    globals_initializers := [], constants := none }

/-- A function being lifted in the examples: register 0 holds an object of
type `A`, register 1 an i32. -/
def exMain : Function :=
  { name := none, t := RefType.mk 1, findex := RefFun.mk 9,
    regs := [RefType.mk 3, RefType.mk 2],
    ops := [Opcode.New (Reg.mk 0), Opcode.CallN (Reg.mk 1) (RefFun.mk 0) [Reg.mk 0]],
    debug_info := none, assigns := none, parent := none }

/-- A lifter state whose topmost pending context is a `Constructor` for
register 0 recorded at position 0. -/
def stCtor : DecompilerState :=
  { scopes := Scopes.new, reg_state := [],
    expr_ctx := [ExprCtx.Constructor (Reg.mk 0) 0], seen := [], emitted := [] }

/-- A fresh empty lifter state. -/
def stEmpty : DecompilerState :=
  { scopes := Scopes.new, reg_state := [], expr_ctx := [], seen := [], emitted := [] }

/-- A lifter state inside a loop whose header is opcode 0, cursor at 3. -/
def stLoop : DecompilerState :=
  { scopes := ⟨3, [⟨ScopeKind.Loop 0 (Expr.Unknown "missing expr"), none, []⟩,
      ⟨ScopeKind.Root, none, []⟩]⟩,
    reg_state := [], expr_ctx := [], seen := [], emitted := [] }

/-- The loop function of the witnesses: `Label; JFalse r0 +2; Incr r0;
JAlways -4` (the backward jump at 3 targets the header 0). -/
def exLoopFun : Function :=
  { name := none, t := RefType.mk 1, findex := RefFun.mk 9,
    regs := [RefType.mk 2],
    ops := [Opcode.Label, Opcode.JFalse (Reg.mk 0) 2, Opcode.Incr (Reg.mk 0),
      Opcode.JAlways (-4)],
    debug_info := none, assigns := none, parent := none }

/-- A function whose only opcode reads a string-typed global (register type
index 13) that has no initializer: the lift panics on the `unwrap`. -/
def exGlobalFun : Function :=
  { name := none, t := RefType.mk 1, findex := RefFun.mk 9,
    regs := [RefType.mk 13],
    ops := [Opcode.GetGlobal (Reg.mk 0) (RefGlobal.mk 0)],
    debug_info := none, assigns := none, parent := none }

/-- A function whose only opcode reads a global whose destination register
type resolves to an `Enum`: the lift represents it inline as `Unknown`. -/
def exEnumGlobalFun : Function :=
  { name := none, t := RefType.mk 1, findex := RefFun.mk 9,
    regs := [RefType.mk 6],
    ops := [Opcode.GetGlobal (Reg.mk 0) (RefGlobal.mk 0)],
    debug_info := none, assigns := none, parent := none }

/-- A function with one i32 argument named `x` (assigns entry at opcode index
0) which is also re-assigned by opcode 0 (assigns entry at index 1): the first
materialized assignment to `x` then carries `declaration = false`. -/
def exArgsFun : Function :=
  { name := none, t := RefType.mk 5, findex := RefFun.mk 9,
    regs := [RefType.mk 2],
    ops := [Opcode.Int (Reg.mk 0) (RefInt.mk 0)],
    debug_info := none,
    assigns := some [(RefString.mk 2, 0), (RefString.mk 2, 1)], parent := none }

/-- The function of the non-termination counterexample: its only opcode takes
a static closure of itself. -/
def fCyc : Function :=
  { name := none, t := RefType.mk 1, findex := RefFun.mk 0,
    regs := [RefType.mk 1],
    ops := [Opcode.StaticClosure (Reg.mk 0) (RefFun.mk 0)],
    debug_info := none, assigns := none, parent := none }

/-- Bytecode holding `fCyc` as findex 0: the closure-reference graph is
cyclic. -/
def codeCyc : Bytecode :=
  { ints := [], floats := [], strings := [],
    types := [Ty.Void, Ty.Fun ⟨[], RefType.mk 0⟩],
    globals := [], natives := [], functions := [fCyc],
    findexes := [RefFunKnown.Fun 0],
    globals_initializers := [], constants := none }

/-- Example class: two own fields `f` and `x` (no inherited fields); field 0
is bound to findex 0 in `bindings`, so only field 1 (`x`) survives. -/
def objB : TypeObj :=
  ⟨RefString.mk 0, none, RefGlobal.mk 0,
   [⟨RefString.mk 1, RefType.mk 2⟩, ⟨RefString.mk 2, RefType.mk 2⟩], [],
   [(RefField.mk 0, RefFun.mk 0)],
   [⟨RefString.mk 1, RefType.mk 2⟩, ⟨RefString.mk 2, RefType.mk 2⟩]⟩

/-- A loop with a `continue`: the backward `JAlways` at 1 is followed by
another `JAlways` (at 2) targeting the same header 0. -/
def exLoopFun2 : Function :=
  { name := none, t := RefType.mk 1, findex := RefFun.mk 9,
    regs := [RefType.mk 2],
    ops := [Opcode.Label, Opcode.JAlways (-2), Opcode.JAlways (-3)],
    debug_info := none, assigns := none, parent := none }

/-- Extract the `ok` state of a lifter computation; the error side falls back
to the given default state. -/
def okStateD (x : Except Panic DecompilerState) (d : DecompilerState) :
    DecompilerState :=
  match x with
  | Except.ok st => st
  | Except.error _ => d

/-- The initial state of the argument-naming example: `DecompilerState.new`
evaluated on `exCode`/`exArgsFun` (its `seen` is seeded with `x`). -/
def stArgsInit : DecompilerState :=
  okStateD (DecompilerState.new exCode exArgsFun) stEmpty

/-- The final state of the argument-naming example: the lift loop run over
`exArgsFun`'s single opcode. -/
def stArgsEnd : DecompilerState :=
  okStateD (decompLoop exCode exArgsFun recurStub 0 exArgsFun.ops stArgsInit)
    stEmpty

/-! Helper lemmas about the `Except` monad. -/

theorem exc_ok_bind {α β : Type} (a : α) (g : α → Except Panic β) :
    (Except.ok a >>= g) = g a := rfl

theorem exc_error_bind {α β : Type} (e : Panic) (g : α → Except Panic β) :
    ((Except.error e : Except Panic α) >>= g) = Except.error e := rfl

theorem exc_pure_eq {α : Type} (a : α) : (pure a : Except Panic α) = Except.ok a := rfl

theorem exc_bind_ok {α β : Type} {x : Except Panic α} {g : α → Except Panic β} {b : β} :
    x >>= g = Except.ok b ↔ ∃ a, x = Except.ok a ∧ g a = Except.ok b := by
  cases x <;> simp [exc_ok_bind, exc_error_bind]

/-- C4. For every conditional jump opcode, the condition handed to `push_jmp`
is the logical negation of the opcode's literal test, exactly as the
specification tabulates: `JTrue` gives `not(cond)`, `JFalse` gives `cond`,
`JNull` gives `reg ≠ null`, `JNotNull` gives `reg == null`, `JSGte`/`JUGte`
give `b > a`, `JSGt` gives `b ≥ a`, `JSLte` gives `b < a`, `JSLt`/`JULt` give
`b ≤ a`, `JEq` gives `a ≠ b`, `JNotEq` gives `a == b`. -/
theorem jump_conditions (code : Bytecode) (f : Function)
    (recur : Function → Except Panic (List Statement)) (i : Nat)
    (c a b : Reg) (offset : Int) (st : DecompilerState) :
    decompStep code f recur i (Opcode.JTrue c offset) st
      = push_jmp code f i offset (Ast.notE (st.expr c)) st
  ∧ decompStep code f recur i (Opcode.JFalse c offset) st
      = push_jmp code f i offset (st.expr c) st
  ∧ decompStep code f recur i (Opcode.JNull c offset) st
      = push_jmp code f i offset (Ast.noteqE (st.expr c) Ast.cst_null) st
  ∧ decompStep code f recur i (Opcode.JNotNull c offset) st
      = push_jmp code f i offset (Ast.eqE (st.expr c) Ast.cst_null) st
  ∧ decompStep code f recur i (Opcode.JSGte a b offset) st
      = push_jmp code f i offset (Ast.gtE (st.expr b) (st.expr a)) st
  ∧ decompStep code f recur i (Opcode.JUGte a b offset) st
      = push_jmp code f i offset (Ast.gtE (st.expr b) (st.expr a)) st
  ∧ decompStep code f recur i (Opcode.JSGt a b offset) st
      = push_jmp code f i offset (Ast.gteE (st.expr b) (st.expr a)) st
  ∧ decompStep code f recur i (Opcode.JSLte a b offset) st
      = push_jmp code f i offset (Ast.ltE (st.expr b) (st.expr a)) st
  ∧ decompStep code f recur i (Opcode.JSLt a b offset) st
      = push_jmp code f i offset (Ast.lteE (st.expr b) (st.expr a)) st
  ∧ decompStep code f recur i (Opcode.JULt a b offset) st
      = push_jmp code f i offset (Ast.lteE (st.expr b) (st.expr a)) st
  ∧ decompStep code f recur i (Opcode.JEq a b offset) st
      = push_jmp code f i offset (Ast.noteqE (st.expr a) (st.expr b)) st
  ∧ decompStep code f recur i (Opcode.JNotEq a b offset) st
      = push_jmp code f i offset (Ast.eqE (st.expr a) (st.expr b)) st :=
  ⟨rfl, rfl, rfl, rfl, rfl, rfl, rfl, rfl, rfl, rfl, rfl, rfl⟩

/-- C1 (amended). `Call1`–`Call4` dispatch to `push_call`; when the topmost
pending context is a `Constructor` whose register equals the call's first
argument, `push_call` pushes, via `push_expr` at the recorded position, a
`ConstructorCall` built from that register's type and the remaining arguments,
and pops the context. The `CallN` arm pushes the same `ConstructorCall` but
leaves the context stack unchanged (it does not pop). -/
theorem ctor_fold (code : Bytecode) (f : Function)
    (recur : Function → Except Panic (List Statement))
    (i : Nat) (dst : Reg) (fn : RefFun) (args : List Reg)
    (a1 a2 a3 a4 a5 : Reg)
    (st : DecompilerState) (reg : Reg) (pos : Nat) (rt : RefType)
    (hctx : st.expr_ctx.getLast? = some (ExprCtx.Constructor reg pos))
    (ha : listIdx args 0 = Except.ok reg)
    (hrt : f.regtype reg = Except.ok rt) :
    push_call code f i dst fn args st
      = (do
          let st' ← st.push_expr code f pos reg
            (Expr.Constructor rt (st.args_expr (args.drop 1)))
          pure { st' with expr_ctx := st'.expr_ctx.dropLast })
  ∧ decompStep code f recur i (Opcode.CallN dst fn args) st
      = st.push_expr code f pos reg (Expr.Constructor rt (st.args_expr (args.drop 1)))
  ∧ decompStep code f recur i (Opcode.Call1 dst fn a1) st = push_call code f i dst fn [a1] st
  ∧ decompStep code f recur i (Opcode.Call2 dst fn a1 a2) st
      = push_call code f i dst fn [a1, a2] st
  ∧ decompStep code f recur i (Opcode.Call3 dst fn a1 a2 a3) st
      = push_call code f i dst fn [a1, a2, a3] st
  ∧ decompStep code f recur i (Opcode.Call4 dst fn a1 a2 a3 a4) st
      = push_call code f i dst fn [a1, a2, a3, a4] st := by
  refine ⟨?_, ?_, rfl, rfl, rfl, rfl⟩
  · simp [push_call, hctx, ha, hrt, exc_ok_bind]
  · simp [decompStep, hctx, ha, hrt, exc_ok_bind]

/-- C1 witness: at a concrete state whose topmost context is
`Constructor(reg 0, pos 0)`, a `Call1`-style `push_call` folds and pops. -/
theorem ctor_fold_witness :
    stCtor.expr_ctx.getLast? = some (ExprCtx.Constructor (Reg.mk 0) 0)
  ∧ listIdx [Reg.mk 0] 0 = Except.ok (Reg.mk 0)
  ∧ exMain.regtype (Reg.mk 0) = Except.ok (RefType.mk 3)
  ∧ push_call exCode exMain 1 (Reg.mk 1) (RefFun.mk 0) [Reg.mk 0] stCtor
      = Except.ok { stCtor with
          reg_state := [(Reg.mk 0, Expr.Constructor (RefType.mk 3) [])],
          expr_ctx := [] } :=
  ⟨rfl, rfl, rfl,
    (ctor_fold exCode exMain recurStub 1 (Reg.mk 1) (RefFun.mk 0) [Reg.mk 0]
      (Reg.mk 0) (Reg.mk 0) (Reg.mk 0) (Reg.mk 0) (Reg.mk 0)
      stCtor (Reg.mk 0) 0 (RefType.mk 3) rfl rfl rfl).1⟩

/-- C1 counterexample: the claim says the `CallN` fold pops the `Constructor`
context, but after a folding `CallN` step the context stack still holds it
(the `CallN` arm never calls `expr_ctx.pop()`). -/
theorem ctor_fold_calln_no_pop :
    ((decompStep exCode exMain recurStub 1
        (Opcode.CallN (Reg.mk 1) (RefFun.mk 0) [Reg.mk 0]) stCtor).map
      (fun st => st.expr_ctx.isEmpty)) = Except.ok false
  ∧ (Except.ok false : Except Panic Bool) ≠ Except.ok true :=
  ⟨rfl, by simp⟩

/-- C2 (amended). The `SetField` arm emits
`Assign{declaration=false, variable=Field(expr(obj), name), assign=expr(src)}`
only when the pending-context stack is empty; when the topmost context is a
`Constructor` (not an `Anonymous`), the context is restored and nothing at all
is emitted. -/
theorem setfield_assign (code : Bytecode) (f : Function)
    (recur : Function → Except Panic (List Statement)) (i : Nat)
    (obj : Reg) (fld : RefField) (src : Reg) (st : DecompilerState)
    (rtO : RefType) (fldE : Expr) :
    (st.expr_ctx = [] →
      f.regtype obj = Except.ok rtO →
      Ast.field (st.expr obj) rtO fld code = Except.ok fldE →
      decompStep code f recur i (Opcode.SetField obj fld src) st
        = Except.ok (st.push_stmt (Statement.Assign false fldE (st.expr src))))
  ∧ (∀ reg pos, st.expr_ctx.getLast? = some (ExprCtx.Constructor reg pos) →
      decompStep code f recur i (Opcode.SetField obj fld src) st = Except.ok st) := by
  constructor
  · intro hctx hrt hfld
    have hlast : st.expr_ctx.getLast? = none := by simp [hctx]
    simp [decompStep, hlast, hrt, hfld, exc_ok_bind]
  · intro reg pos hctx
    simp [decompStep, hctx, exc_pure_eq]

/-- C2 witness: with an empty context stack the `SetField` lift emits the
assignment; with a `Constructor` on top it leaves the state unchanged. -/
theorem setfield_assign_witness :
    stEmpty.expr_ctx = []
  ∧ exMain.regtype (Reg.mk 0) = Except.ok (RefType.mk 3)
  ∧ Ast.field (stEmpty.expr (Reg.mk 0)) (RefType.mk 3) (RefField.mk 0) exCode
      = Except.ok (Expr.Field (Expr.Unknown "missing expr") "field0")
  ∧ decompStep exCode exMain recurStub 1
      (Opcode.SetField (Reg.mk 0) (RefField.mk 0) (Reg.mk 1)) stEmpty
      = Except.ok (stEmpty.push_stmt (Statement.Assign false
          (Expr.Field (Expr.Unknown "missing expr") "field0")
          (Expr.Unknown "missing expr")))
  ∧ decompStep exCode exMain recurStub 1
      (Opcode.SetField (Reg.mk 0) (RefField.mk 0) (Reg.mk 1)) stCtor
      = Except.ok stCtor :=
  ⟨rfl, rfl, rfl,
    (setfield_assign exCode exMain recurStub 1 (Reg.mk 0) (RefField.mk 0) (Reg.mk 1)
      stEmpty (RefType.mk 3)
      (Expr.Field (Expr.Unknown "missing expr") "field0")).1 rfl rfl rfl,
    (setfield_assign exCode exMain recurStub 1 (Reg.mk 0) (RefField.mk 0) (Reg.mk 1)
      stCtor (RefType.mk 3)
      (Expr.Field (Expr.Unknown "missing expr") "field0")).2 (Reg.mk 0) 0 rfl⟩

/-- C2 counterexample: the claim says a `SetField` whose topmost pending
context is a `Constructor` emits the assignment; in fact the step returns the
state unchanged and emits nothing. -/
theorem setfield_assign_ctor_counterexample :
    decompStep exCode exMain recurStub 1
      (Opcode.SetField (Reg.mk 0) (RefField.mk 0) (Reg.mk 1)) stCtor
      = Except.ok stCtor
  ∧ stCtor.emitted = []
  ∧ ([] : List Statement) ≠ [Statement.Assign false
      (Expr.Field (Expr.Unknown "missing expr") "field0")
      (Expr.Unknown "missing expr")] :=
  ⟨rfl, rfl, by simp⟩

theorem push_stmt_expr (st : DecompilerState) (s : Statement) (r : Reg) :
    (st.push_stmt s).expr r = st.expr r := rfl

theorem push_stmt_reg_state (st : DecompilerState) (s : Statement) :
    (st.push_stmt s).reg_state = st.reg_state := rfl

theorem push_stmt_seen (st : DecompilerState) (s : Statement) :
    (st.push_stmt s).seen = st.seen := rfl

theorem push_stmt_emitted (st : DecompilerState) (s : Statement) :
    (st.push_stmt s).emitted = st.emitted ++ [s] := rfl

theorem push_stmt_args_expr (st : DecompilerState) (s : Statement) (l : List Reg) :
    (st.push_stmt s).args_expr l = st.args_expr l := rfl

/-- C3 (amended). For `Call1`–`Call4` (through `push_call`) with no pending
`Constructor` context on top of the stack, the lifter emits a `Comment` with
the callee's display id and then: a method-folded
`Call(Field(expr(args[0]), name), args[1..])` when the callee resolves to a
function whose `is_method()` holds, else a plain `Call(function_reference,
args)`; void-returning calls become `ExprStmt` statements, others are stored
with `push_expr(i, dst, call)`. The `CallN` arm always builds the plain call
(it never method-folds). When the topmost context is a `Constructor` whose
register differs from the first argument, nothing at all is emitted. -/
theorem call_emission (code : Bytecode) (f : Function)
    (recur : Function → Except Panic (List Statement)) (i : Nat)
    (dst : Reg) (fn : RefFun) (args : List Reg) (st : DecompilerState)
    (cmt : String) (func : Function) (a0 : Reg) (nR : RefString) (mname : String)
    (tf : TypeFun) :
    ((∀ reg pos, st.expr_ctx.getLast? ≠ some (ExprCtx.Constructor reg pos)) →
      fn.display_id code = Except.ok cmt →
      fn.resolve_as_fn code = Except.ok (some func) →
      func.is_method = true →
      listIdx args 0 = Except.ok a0 →
      func.name = some nR →
      nR.resolve code.strings = Except.ok mname →
      fn.ty code = Except.ok tf →
      push_call code f i dst fn args st
        = (if tf.ret.is_void then
            Except.ok ((st.push_stmt (Ast.comment cmt)).push_stmt (Ast.stmt
              (Ast.call (Expr.Field (st.expr a0) mname) (st.args_expr (args.drop 1)))))
          else
            (st.push_stmt (Ast.comment cmt)).push_expr code f i dst
              (Ast.call (Expr.Field (st.expr a0) mname) (st.args_expr (args.drop 1)))))
  ∧ ((∀ reg pos, st.expr_ctx.getLast? ≠ some (ExprCtx.Constructor reg pos)) →
      fn.display_id code = Except.ok cmt →
      fn.resolve_as_fn code = Except.ok none →
      fn.ty code = Except.ok tf →
      push_call code f i dst fn args st
        = (if tf.ret.is_void then
            Except.ok ((st.push_stmt (Ast.comment cmt)).push_stmt (Ast.stmt
              (Ast.call_fun fn (st.args_expr args))))
          else
            (st.push_stmt (Ast.comment cmt)).push_expr code f i dst
              (Ast.call_fun fn (st.args_expr args))))
  ∧ ((∀ reg pos, st.expr_ctx.getLast? ≠ some (ExprCtx.Constructor reg pos)) →
      fn.display_id code = Except.ok cmt →
      fn.resolve_as_fn code = Except.ok (some func) →
      func.is_method = false →
      fn.ty code = Except.ok tf →
      push_call code f i dst fn args st
        = (if tf.ret.is_void then
            Except.ok ((st.push_stmt (Ast.comment cmt)).push_stmt (Ast.stmt
              (Ast.call_fun fn (st.args_expr args))))
          else
            (st.push_stmt (Ast.comment cmt)).push_expr code f i dst
              (Ast.call_fun fn (st.args_expr args))))
  ∧ ((∀ reg pos, st.expr_ctx.getLast? ≠ some (ExprCtx.Constructor reg pos)) →
      fn.display_id code = Except.ok cmt →
      fn.ty code = Except.ok tf →
      decompStep code f recur i (Opcode.CallN dst fn args) st
        = (if tf.ret.is_void then
            Except.ok ((st.push_stmt (Ast.comment cmt)).push_stmt (Ast.stmt
              (Ast.call_fun fn (st.args_expr args))))
          else
            (st.push_stmt (Ast.comment cmt)).push_expr code f i dst
              (Ast.call_fun fn (st.args_expr args))))
  ∧ (∀ reg pos, st.expr_ctx.getLast? = some (ExprCtx.Constructor reg pos) →
      listIdx args 0 = Except.ok a0 → reg ≠ a0 →
      push_call code f i dst fn args st = Except.ok st
      ∧ decompStep code f recur i (Opcode.CallN dst fn args) st = Except.ok st) := by
  refine ⟨?_, ?_, ?_, ?_, ?_⟩
  · intro hctx hcmt hres hm ha hn hs hty
    rcases hL : st.expr_ctx.getLast? with _ | ctx
    · simp [push_call, hL, hcmt, hres, hm, ha, hn, hs, hty, exc_ok_bind, exc_pure_eq,
        push_stmt_expr, push_stmt_reg_state, push_stmt_args_expr]
    · cases ctx with
      | Constructor reg pos => exact absurd hL (hctx reg pos)
      | Anonymous pos flds rem =>
          simp [push_call, hL, hcmt, hres, hm, ha, hn, hs, hty, exc_ok_bind, exc_pure_eq,
            push_stmt_expr, push_stmt_reg_state, push_stmt_args_expr]
  · intro hctx hcmt hres hty
    rcases hL : st.expr_ctx.getLast? with _ | ctx
    · simp [push_call, hL, hcmt, hres, hty, exc_ok_bind, exc_pure_eq,
        push_stmt_args_expr]
    · cases ctx with
      | Constructor reg pos => exact absurd hL (hctx reg pos)
      | Anonymous pos flds rem =>
          simp [push_call, hL, hcmt, hres, hty, exc_ok_bind, exc_pure_eq,
            push_stmt_args_expr]
  · intro hctx hcmt hres hm hty
    rcases hL : st.expr_ctx.getLast? with _ | ctx
    · simp [push_call, hL, hcmt, hres, hm, hty, exc_ok_bind, exc_pure_eq,
        push_stmt_args_expr]
    · cases ctx with
      | Constructor reg pos => exact absurd hL (hctx reg pos)
      | Anonymous pos flds rem =>
          simp [push_call, hL, hcmt, hres, hm, hty, exc_ok_bind, exc_pure_eq,
            push_stmt_args_expr]
  · intro hctx hcmt hty
    rcases hL : st.expr_ctx.getLast? with _ | ctx
    · simp [decompStep, hL, hcmt, hty, exc_ok_bind, exc_pure_eq,
        push_stmt_args_expr]
    · cases ctx with
      | Constructor reg pos => exact absurd hL (hctx reg pos)
      | Anonymous pos flds rem =>
          simp [decompStep, hL, hcmt, hty, exc_ok_bind, exc_pure_eq,
            push_stmt_args_expr]
  · intro reg pos hL ha hne
    constructor
    · simp [push_call, hL, ha, exc_ok_bind, hne, exc_pure_eq]
    · simp [decompStep, hL, ha, exc_ok_bind, hne, exc_pure_eq]

/-- C3 witness: a `Call1` of the method callee `f@1` with an empty context
emits the comment and the method-folded non-void call, stored through
`push_expr`. -/
theorem call_emission_witness :
    (RefFun.mk 1).display_id exCode = Except.ok "f@1"
  ∧ (RefFun.mk 1).resolve_as_fn exCode = Except.ok (some exF1)
  ∧ exF1.is_method = true
  ∧ listIdx [Reg.mk 0] 0 = Except.ok (Reg.mk 0)
  ∧ exF1.name = some (RefString.mk 1)
  ∧ (RefString.mk 1).resolve exCode.strings = Except.ok "f"
  ∧ (RefFun.mk 1).ty exCode = Except.ok ⟨[RefType.mk 3], RefType.mk 2⟩
  ∧ push_call exCode exMain 0 (Reg.mk 1) (RefFun.mk 1) [Reg.mk 0] stEmpty
      = (stEmpty.push_stmt (Ast.comment "f@1")).push_expr exCode exMain 0 (Reg.mk 1)
          (Ast.call (Expr.Field (stEmpty.expr (Reg.mk 0)) "f") (stEmpty.args_expr [])) := by
  refine ⟨rfl, rfl, rfl, rfl, rfl, rfl, rfl, ?_⟩
  exact (call_emission exCode exMain recurStub 0 (Reg.mk 1) (RefFun.mk 1) [Reg.mk 0]
    stEmpty "f@1" exF1 (Reg.mk 0) (RefString.mk 1) "f"
    ⟨[RefType.mk 3], RefType.mk 2⟩).1
    (by intro reg pos h; exact Option.noConfusion h) rfl rfl rfl rfl rfl rfl rfl

/-- C3 counterexample: the claim says a `CallN` whose callee satisfies
`is_method()` builds `Call(Field(expr(args[0]), name), args[1..])`; in fact
the `CallN` arm stores the plain `Call(function_reference, args)` — the callee
of the stored call is a function reference, not a field access. -/
theorem call_emission_calln_counterexample :
    ((decompStep exCode exMain recurStub 0
        (Opcode.CallN (Reg.mk 1) (RefFun.mk 1) [Reg.mk 0]) stEmpty).map
      (fun st => lookupA st.reg_state (Reg.mk 1)))
      = Except.ok (some (Expr.Call (Expr.FunRef (RefFun.mk 1))
          [Expr.Unknown "missing expr"]))
  ∧ Expr.Call (Expr.FunRef (RefFun.mk 1)) [Expr.Unknown "missing expr"]
      ≠ Expr.Call (Expr.Field (Expr.Unknown "missing expr") "f") [] :=
  ⟨rfl, by simp⟩

theorem isSiblingJump_iff (ls j : Nat) (o : Opcode) :
    isSiblingJump ls j o = true ↔
      ∃ off, o = Opcode.JAlways off ∧ jumpTarget j off = ls := by
  cases o <;> simp [isSiblingJump]

theorem scanSibling_iff (ls : Nat) (l : List Opcode) :
    ∀ j, scanSibling ls j l = true ↔
      ∃ k off, l.get? k = some (Opcode.JAlways off) ∧ jumpTarget (j + k) off = ls := by
  induction l with
  | nil => intro j; simp [scanSibling]
  | cons o rest ih =>
      intro j
      rw [scanSibling, Bool.or_eq_true, isSiblingJump_iff, ih (j + 1)]
      constructor
      · rintro (⟨off, rfl, hj⟩ | ⟨k, off, hk, hj⟩)
        · exact ⟨0, off, rfl, by simpa using hj⟩
        · exact ⟨k + 1, off, by simpa using hk, by
            have : j + (k + 1) = j + 1 + k := by omega
            rw [this]; exact hj⟩
      · rintro ⟨k, off, hk, hj⟩
        cases k with
        | zero =>
            left
            refine ⟨off, ?_, by simpa using hj⟩
            simpa using hk
        | succ m =>
            right
            refine ⟨m, off, by simpa using hk, ?_⟩
            have : j + 1 + m = j + (m + 1) := by omega
            rw [this]; exact hj

theorem hasLoopSibling_iff (ops : List Opcode) (start ls : Nat) :
    hasLoopSibling ops start ls = true ↔
      ∃ j off, start ≤ j ∧ ops.get? j = some (Opcode.JAlways off)
        ∧ jumpTarget j off = ls := by
  rw [hasLoopSibling, scanSibling_iff]
  constructor
  · rintro ⟨k, off, hk, hj⟩
    refine ⟨start + k, off, Nat.le_add_right _ _, ?_, hj⟩
    rw [List.get?_drop] at hk
    exact hk
  · rintro ⟨j, off, hle, hk, hj⟩
    refine ⟨j - start, off, ?_, ?_⟩
    · rw [List.get?_drop]
      rw [Nat.add_sub_cancel' hle]
      exact hk
    · rw [Nat.add_sub_cancel' hle]
      exact hj

/-- C5. A backward `JAlways` at position `i` inside a loop with header `ls`
emits `Continue` exactly when some later position `j ≥ i + 1` holds a
`JAlways` whose absolute target `(j + offset + 1)` equals `ls`; otherwise it
closes the innermost loop scope and emits the resulting `While` (panicking if
the innermost scope is not a loop). -/
theorem jalways_backward (code : Bytecode) (f : Function)
    (recur : Function → Except Panic (List Statement)) (i : Nat)
    (offset : Int) (st : DecompilerState) (ls : Nat)
    (hoff : offset < 0)
    (hls : st.scopes.last_loop_start = some ls) :
    (hasLoopSibling f.ops (i + 1) ls = true ↔
      ∃ j off2, i + 1 ≤ j ∧ f.ops.get? j = some (Opcode.JAlways off2)
        ∧ jumpTarget j off2 = ls)
  ∧ (hasLoopSibling f.ops (i + 1) ls = true →
      decompStep code f recur i (Opcode.JAlways offset) st
        = Except.ok (st.push_stmt Statement.Continue))
  ∧ (hasLoopSibling f.ops (i + 1) ls = false →
      decompStep code f recur i (Opcode.JAlways offset) st
        = (match st.scopes.end_last_loop with
           | some (w, sc) =>
              Except.ok (DecompilerState.push_stmt { st with scopes := sc } w)
           | none => Except.error (Panic.panic "Last scope is not a loop !"))) := by
  refine ⟨hasLoopSibling_iff f.ops (i + 1) ls, ?_, ?_⟩
  · intro hsib
    simp [decompStep, hoff, hls, hsib, exc_ok_bind, exc_pure_eq]
  · intro hsib
    rcases h2 : st.scopes.end_last_loop with _ | ⟨w, sc⟩ <;>
      simp [decompStep, hoff, hls, hsib, h2, exc_ok_bind, exc_pure_eq]

/-- C5 witness: in `exLoopFun` the final backward jump (no sibling) closes the
loop and emits the `While`; in `exLoopFun2` the backward jump at 1 has a
sibling at 2 targeting header 0 and emits `Continue`. -/
theorem jalways_backward_witness :
    ((-4 : Int) < 0)
  ∧ stLoop.scopes.last_loop_start = some 0
  ∧ hasLoopSibling exLoopFun.ops 4 0 = false
  ∧ decompStep exCode exLoopFun recurStub 3 (Opcode.JAlways (-4)) stLoop
      = Except.ok (DecompilerState.push_stmt
          { stLoop with scopes := ⟨3, [⟨ScopeKind.Root, none, []⟩]⟩ }
          (Statement.While (Expr.Unknown "missing expr") []))
  ∧ hasLoopSibling exLoopFun2.ops 2 0 = true
  ∧ decompStep exCode exLoopFun2 recurStub 1 (Opcode.JAlways (-2)) stLoop
      = Except.ok (stLoop.push_stmt Statement.Continue) :=
  ⟨by decide, rfl, rfl,
    (jalways_backward exCode exLoopFun recurStub 3 (-4) stLoop 0
      (by decide) rfl).2.2 rfl,
    rfl,
    (jalways_backward exCode exLoopFun2 recurStub 1 (-2) stLoop 0
      (by decide) rfl).2.1 rfl⟩

theorem lookupA_insertA {α β : Type} [DecidableEq α] (l : List (α × β)) (k : α)
    (v : β) (k' : α) :
    lookupA (insertA l k v) k' = if k' = k then some v else lookupA l k' := by
  induction l with
  | nil =>
      simp only [insertA, lookupA]
      by_cases h : k = k'
      · subst h; simp
      · simp [h, Ne.symm h]
  | cons p rest ih =>
      obtain ⟨a, bv⟩ := p
      simp only [insertA]
      by_cases hak : a = k
      · subst hak
        simp only [if_pos rfl, lookupA]
        by_cases h : a = k'
        · subst h; simp
        · simp [h, Ne.symm h]
      · simp only [if_neg hak, lookupA]
        by_cases h : a = k'
        · subst h
          simp [hak]
        · simp [h, ih]

theorem initArgs_lookup_notin (code : Bytecode) (f : Function) (start : Nat) :
    ∀ (idxs : List Nat) (acc : List (Reg × Expr) × List String)
      (out : List (Reg × Expr) × List String),
      DecompilerState.initArgs code f start idxs acc = Except.ok out →
      ∀ r : Reg, r.val ∉ idxs → lookupA out.1 r = lookupA acc.1 r := by
  intro idxs
  induction idxs with
  | nil =>
      intro acc out h r _
      cases acc
      simp only [DecompilerState.initArgs, exc_pure_eq, Except.ok.injEq] at h
      subst h; rfl
  | cons i rest ih =>
      intro acc out h r hr
      obtain ⟨rs, seen⟩ := acc
      simp only [DecompilerState.initArgs] at h
      rcases exc_bind_ok.mp h with ⟨nm, _, h'⟩
      have hr1 : r.val ∉ rest := fun hx => hr (List.mem_cons_of_mem _ hx)
      have hr0 : r.val ≠ i := fun hx => hr (hx ▸ List.mem_cons_self _ _)
      rw [ih _ _ h' r hr1]
      simp only [lookupA_insertA]
      have : r ≠ Reg.mk i := by
        intro hx; exact hr0 (congrArg Reg.val hx)
      simp [this]

theorem initArgs_lookup_mem (code : Bytecode) (f : Function) (start : Nat) :
    ∀ (idxs : List Nat) (acc : List (Reg × Expr) × List String)
      (out : List (Reg × Expr) × List String),
      DecompilerState.initArgs code f start idxs acc = Except.ok out →
      idxs.Nodup →
      ∀ i ∈ idxs, ∃ nm, f.arg_name code (i - start) = Except.ok nm ∧
        lookupA out.1 (Reg.mk i) = some (Expr.Variable (Reg.mk i) nm) := by
  intro idxs
  induction idxs with
  | nil => intro acc out _ _ i hi; exact absurd hi (List.not_mem_nil i)
  | cons j rest ih =>
      intro acc out h hnd i hi
      obtain ⟨rs, seen⟩ := acc
      simp only [DecompilerState.initArgs] at h
      rcases exc_bind_ok.mp h with ⟨nm, hnm, h'⟩
      rcases List.mem_cons.mp hi with rfl | hi'
      · refine ⟨nm, hnm, ?_⟩
        have hnotin : i ∉ rest := (List.nodup_cons.mp hnd).1
        rw [initArgs_lookup_notin code f start rest _ _ h' (Reg.mk i) hnotin]
        simp [lookupA_insertA]
      · exact ih _ _ h' (List.nodup_cons.mp hnd).2 i hi'

theorem initArgs_seen_mono (code : Bytecode) (f : Function) (start : Nat) :
    ∀ (idxs : List Nat) (acc : List (Reg × Expr) × List String)
      (out : List (Reg × Expr) × List String),
      DecompilerState.initArgs code f start idxs acc = Except.ok out →
      ∀ n, n ∈ acc.2 → n ∈ out.2 := by
  intro idxs
  induction idxs with
  | nil =>
      intro acc out h n hn
      cases acc
      simp only [DecompilerState.initArgs, exc_pure_eq, Except.ok.injEq] at h
      subst h; exact hn
  | cons i rest ih =>
      intro acc out h n hn
      obtain ⟨rs, seen⟩ := acc
      simp only [DecompilerState.initArgs] at h
      rcases exc_bind_ok.mp h with ⟨nm, _, h'⟩
      refine ih _ _ h' n ?_
      cases nm with
      | none => exact hn
      | some m =>
          simp only [seenInsert]
          split
          · exact hn
          · exact List.mem_cons_of_mem _ hn

theorem initArgs_seen_mem (code : Bytecode) (f : Function) (start : Nat) :
    ∀ (idxs : List Nat) (acc : List (Reg × Expr) × List String)
      (out : List (Reg × Expr) × List String),
      DecompilerState.initArgs code f start idxs acc = Except.ok out →
      ∀ i ∈ idxs, ∀ nm, f.arg_name code (i - start) = Except.ok (some nm) →
        nm ∈ out.2 := by
  intro idxs
  induction idxs with
  | nil => intro acc out _ i hi; exact absurd hi (List.not_mem_nil i)
  | cons j rest ih =>
      intro acc out h i hi nm hnm
      obtain ⟨rs, seen⟩ := acc
      simp only [DecompilerState.initArgs] at h
      rcases exc_bind_ok.mp h with ⟨nm', hnm', h'⟩
      rcases List.mem_cons.mp hi with rfl | hi'
      · rw [hnm] at hnm'
        cases hnm'
        refine initArgs_seen_mono code f start rest _ _ h' nm ?_
        simp [seenInsert]
        split
        · assumption
        · exact List.mem_cons_self _ _
      · exact ih _ _ h' i hi' nm hnm

/-- C10. When the decompiler state is created for `f`: register 0 is bound to
`This` exactly when `is_method()` holds (a parent type exists, there is at
least one register, and register 0's type equals the parent type) or the
resolved name is `__constructor__`; every other argument register `i` is
pre-bound to `Variable(Reg(i), arg_name(i - start))`; every named argument's
name is in `seen` before any opcode runs; and a `push_expr` whose debug name
is already in `seen` emits its assignment with `declaration = false`. -/
theorem state_new_binding (code : Bytecode) (f : Function) (st : DecompilerState)
    (b : Bool) (tf : TypeFun)
    (hnew : DecompilerState.new code f = Except.ok st)
    (hb : DecompilerState.isThisCond code f = Except.ok b)
    (hty : f.ty code = Except.ok tf) :
    (f.is_method = true ↔ ∃ p, f.parent = some p ∧ f.regs.get? 0 = some p)
  ∧ (b = true ↔ (f.is_method = true ∨
      ∃ n, f.name = some n ∧ n.resolve code.strings = Except.ok "__constructor__"))
  ∧ ((lookupA st.reg_state (Reg.mk 0) = some Expr.This) ↔ b = true)
  ∧ (∀ i : Nat, (if b then 1 else 0) ≤ i → i < tf.args.length →
      ∃ nm, f.arg_name code (i - (if b then 1 else 0)) = Except.ok nm ∧
        lookupA st.reg_state (Reg.mk i) = some (Expr.Variable (Reg.mk i) nm))
  ∧ (∀ j nm, j < tf.args.length - (if b then 1 else 0) →
      f.arg_name code j = Except.ok (some nm) → nm ∈ st.seen)
  ∧ (∀ i' dst e nm st', f.var_name code i' = Except.ok (some nm) → nm ∈ st.seen →
      st.push_expr code f i' dst e = Except.ok st' →
      st'.emitted = st.emitted
        ++ [Statement.Assign false (Expr.Variable dst (some nm)) e]) := by
  simp only [DecompilerState.new, hb, hty, exc_ok_bind] at hnew
  rcases exc_bind_ok.mp hnew with ⟨pr, hinit, hpure⟩
  obtain ⟨rs, seen⟩ := pr
  simp only [exc_pure_eq, Except.ok.injEq] at hpure
  subst hpure
  have hnodup : (List.range' (if b then 1 else 0)
      (tf.args.length - (if b then 1 else 0))).Nodup := List.nodup_range' _ _
  refine ⟨?_, ?_, ?_, ?_, ?_, ?_⟩
  · cases hp : f.parent with
    | none => simp [Function.is_method, hp]
    | some p =>
        simp only [Function.is_method, hp, Bool.and_eq_true, beq_iff_eq,
          Option.some.injEq]
        constructor
        · rintro ⟨-, h2⟩; exact ⟨p, rfl, h2⟩
        · rintro ⟨q, hq, h2⟩
          cases hq
          refine ⟨?_, h2⟩
          simp only [Bool.not_eq_true']
          cases hr : f.regs with
          | nil => rw [hr] at h2; exact Option.noConfusion h2
          | cons hd tl => rfl
  · rw [DecompilerState.isThisCond] at hb
    split at hb
    · rename_i hm
      simp only [exc_pure_eq, Except.ok.injEq] at hb
      subst hb
      simp [hm]
    · rename_i hm
      split at hb
      · rename_i n hn
        rcases exc_bind_ok.mp hb with ⟨s, hs, hps⟩
        simp only [exc_pure_eq, Except.ok.injEq] at hps
        subst hps
        have hm' : f.is_method = false := Bool.not_eq_true _ ▸ Bool.of_not_eq_true hm
        simp only [hm', Bool.false_eq_true, false_or, hn, Option.some.injEq]
        constructor
        · intro hbeq
          refine ⟨n, rfl, ?_⟩
          rw [hs]
          congr 1
          exact (beq_iff_eq.mp hbeq)
        · rintro ⟨n', hn', hres⟩
          cases hn'
          rw [hs] at hres
          cases hres
          exact beq_self_eq_true _
      · rename_i hn
        simp only [exc_pure_eq, Except.ok.injEq] at hb
        subst hb
        have hm' : f.is_method = false := Bool.of_not_eq_true hm
        simp [hm', hn]
  · cases b with
    | true =>
        have h0 : (Reg.mk 0).val ∉ List.range' (if true then 1 else 0)
            (tf.args.length - (if true then 1 else 0)) := by
          simp [List.mem_range'_1]
        rw [initArgs_lookup_notin code f _ _ _ _ hinit (Reg.mk 0) h0]
        simp [lookupA]
    | false =>
        simp only [Bool.false_eq_true, iff_false]
        intro hlk
        by_cases h0 : (0 : Nat) ∈ List.range' (if false then 1 else 0)
            (tf.args.length - (if false then 1 else 0))
        · rcases initArgs_lookup_mem code f _ _ _ _ hinit hnodup 0 h0 with
            ⟨nm, _, hlk'⟩
          rw [hlk'] at hlk
          simp at hlk
        · rw [initArgs_lookup_notin code f _ _ _ _ hinit (Reg.mk 0) h0] at hlk
          simp [lookupA] at hlk
  · intro i hge hlt
    have hmem : i ∈ List.range' (if b then 1 else 0)
        (tf.args.length - (if b then 1 else 0)) := by
      rw [List.mem_range'_1]
      omega
    exact initArgs_lookup_mem code f _ _ _ _ hinit hnodup i hmem
  · intro j nm hj hnm
    have hmem : (if b then 1 else 0) + j ∈ List.range' (if b then 1 else 0)
        (tf.args.length - (if b then 1 else 0)) := by
      rw [List.mem_range'_1]
      omega
    have := initArgs_seen_mem code f _ _ _ _ hinit ((if b then 1 else 0) + j) hmem nm
    rw [Nat.add_sub_cancel_left] at this
    exact this hnm
  · intro i' dst e nm st' hvn hseen hpe
    simp only [DecompilerState.push_expr, hvn, exc_ok_bind, exc_pure_eq,
      Except.ok.injEq] at hpe
    subst hpe
    have : (List.contains
        ({ scopes := Scopes.new, reg_state := rs, expr_ctx := [], seen := seen,
           emitted := [] } : DecompilerState).seen nm) = true := by
      exact List.elem_eq_true_of_mem hseen
    simp [this, DecompilerState.push_stmt]
    exact hseen

/-- C10 witness: for a function with one i32 argument named `x` (and no
`This` condition) the created state binds register 0 to `Variable(0, "x")`,
not `This`, and `x` is pre-seeded into `seen`. -/
theorem state_new_binding_witness :
    DecompilerState.new exCode exArgsFun = Except.ok
      ⟨Scopes.new, [(Reg.mk 0, Expr.Variable (Reg.mk 0) (some "x"))], [], ["x"], []⟩
  ∧ DecompilerState.isThisCond exCode exArgsFun = Except.ok false
  ∧ exArgsFun.ty exCode = Except.ok ⟨[RefType.mk 2], RefType.mk 2⟩
  ∧ ((lookupA [(Reg.mk 0, Expr.Variable (Reg.mk 0) (some "x"))] (Reg.mk 0)
        = some Expr.This) ↔ false = true)
  ∧ (∃ nm, exArgsFun.arg_name exCode 0 = Except.ok nm ∧
      lookupA [(Reg.mk 0, Expr.Variable (Reg.mk 0) (some "x"))] (Reg.mk 0)
        = some (Expr.Variable (Reg.mk 0) nm)) :=
  ⟨rfl, rfl, rfl,
    (state_new_binding exCode exArgsFun
      ⟨Scopes.new, [(Reg.mk 0, Expr.Variable (Reg.mk 0) (some "x"))], [], ["x"], []⟩
      false ⟨[RefType.mk 2], RefType.mk 2⟩ rfl rfl rfl).2.2.1,
    (state_new_binding exCode exArgsFun
      ⟨Scopes.new, [(Reg.mk 0, Expr.Variable (Reg.mk 0) (some "x"))], [], ["x"], []⟩
      false ⟨[RefType.mk 2], RefType.mk 2⟩ rfl rfl rfl).2.2.2.1 0
      (by decide) (by decide)⟩

theorem classFieldsAux_eq_spec (code : Bytecode) (ty : TypeObj) (b : Bool) :
    ∀ (l : List ObjField) (n : Nat),
      classFieldsAux code ty b n l =
        ((l.enumFrom n).filter fun p =>
            (lookupA ty.bindings
              (RefField.mk (p.1 + ty.fields.length - ty.own_fields.length))).isNone).mapM
          (fun p => do pure (ClassField.mk (← p.2.name.display code) b p.2.t)) := by
  intro l
  induction l with
  | nil => intro n; rfl
  | cons fld rest ih =>
      intro n
      rw [classFieldsAux]
      rcases hlk : lookupA ty.bindings
          (RefField.mk (n + ty.fields.length - ty.own_fields.length)) with _ | v
      · simp only [hlk, Option.isSome_none, Bool.false_eq_true, if_false,
          List.enumFrom_cons, List.filter_cons, Option.isNone_none, if_pos,
          List.mapM_cons]
        rw [ih (n + 1)]
        cases hd : (fld.name.display code) <;>
          cases hm : ((rest.enumFrom (n + 1)).filter fun p =>
            (lookupA ty.bindings
              (RefField.mk (p.1 + ty.fields.length - ty.own_fields.length))).isNone).mapM
              (fun p => do pure (ClassField.mk (← p.2.name.display code) b p.2.t)) <;>
          simp [exc_ok_bind, exc_error_bind, exc_pure_eq, Bind.bind, Except.bind]
      · simp only [hlk, Option.isSome_some, if_true, List.enumFrom_cons,
          List.filter_cons, Option.isNone_some, Bool.false_eq_true, if_neg]
        · exact ih (n + 1)

/-- C9. The fields list of the `Class` returned by `decompile_class` is
exactly the non-bound own-fields of the object (in declaration order) followed
by the non-bound own-fields of its static counterpart, where a field is bound
iff its absolute field index (own index plus inherited-field count) is a key
of the respective `bindings` map — as captured by `classFieldsSpec`. -/
theorem class_fields_order (fuel : Nat) (code : Bytecode) (obj : TypeObj)
    (cls : Class) (h : decompile_class fuel code obj = Except.ok cls) :
    ∃ stOpt li ls,
      obj.get_static_type code = Except.ok stOpt
    ∧ classFieldsSpec code obj false = Except.ok li
    ∧ (match stOpt with
        | some ty => classFieldsSpec code ty true = Except.ok ls
        | none => ls = ([] : List ClassField))
    ∧ cls.fields = li ++ ls := by
  rw [decompile_class] at h
  rcases exc_bind_ok.mp h with ⟨stOpt, hst, h⟩
  rcases exc_bind_ok.mp h with ⟨fieldsI, hfi, h⟩
  rcases exc_bind_ok.mp h with ⟨fieldsS, hfs, h⟩
  rcases exc_bind_ok.mp h with ⟨mB, hmB, h⟩
  rcases exc_bind_ok.mp h with ⟨mS, hmS, h⟩
  rcases exc_bind_ok.mp h with ⟨mP, hmP, h⟩
  rcases exc_bind_ok.mp h with ⟨nm, hnm, h⟩
  rcases exc_bind_ok.mp h with ⟨par, hpar, h⟩
  simp only [exc_pure_eq, Except.ok.injEq] at h
  subst h
  refine ⟨stOpt, fieldsI, fieldsS, hst, ?_, ?_, rfl⟩
  · simp only [classFieldsSpec]
    rw [← classFieldsAux_eq_spec]
    exact hfi
  · cases stOpt with
    | some ty =>
        simp only [classFieldsSpec]
        rw [← classFieldsAux_eq_spec]
        rw [staticClassFields] at hfs
        exact hfs
    | none =>
        rw [staticClassFields] at hfs
        simp only [exc_pure_eq, Except.ok.injEq] at hfs
        exact hfs.symm

/-- C9 witness: for `objB` (own fields `f`, `x`; field 0 bound; no static
counterpart) the decompiled class's field list is exactly the single non-bound
field `x`, matching `classFieldsSpec`. -/
theorem class_fields_order_witness :
    decompile_class 1 exCode objB = Except.ok
      { name := "A", parent := none,
        fields := [ClassField.mk "x" false (RefType.mk 2)],
        methods := [Method.mk (RefFun.mk 0) false true []] }
  ∧ ∃ stOpt li ls,
      objB.get_static_type exCode = Except.ok stOpt
    ∧ classFieldsSpec exCode objB false = Except.ok li
    ∧ (match stOpt with
        | some ty => classFieldsSpec exCode ty true = Except.ok ls
        | none => ls = ([] : List ClassField))
    ∧ ({ name := "A", parent := none,
         fields := [ClassField.mk "x" false (RefType.mk 2)],
         methods := [Method.mk (RefFun.mk 0) false true []] } : Class).fields
        = li ++ ls :=
  ⟨rfl, class_fields_order 1 exCode objB _ rfl⟩

/-- C7 (amended). Structural scope-stack violations panic (shown: backward
jump outside a loop), and soft resolution failures are represented inline
(shown: a missing register expression yields `Unknown "missing expr"`, a
string-typed `GetGlobal` of an `Enum`-resolved type pushes
`Unknown "unknown enum variant"`), but — contrary to the claim — two further
resolution failures also panic: a string-typed `GetGlobal` whose global has no
initializer (`unwrap` of `None`), and a `StaticClosure` whose function
reference does not resolve to a function. -/
theorem error_taxonomy (code : Bytecode) (f : Function)
    (recur : Function → Except Panic (List Statement)) (i : Nat)
    (st : DecompilerState) (reg dst : Reg) (offset : Int) (g : RefGlobal)
    (fn : RefFun) (rt : RefType) (did : String)
    (n : RefString) (gl : RefGlobal) (cs : List EnumConstruct) :
    (lookupA st.reg_state reg = none → st.expr reg = Expr.Unknown "missing expr")
  ∧ (offset < 0 → st.scopes.last_loop_start = none →
      decompStep code f recur i (Opcode.JAlways offset) st
        = Except.error (Panic.panic "Backward jump but we aren't in a loop ?"))
  ∧ (f.regtype dst = Except.ok rt → rt.val = 13 →
      lookupA code.globals_initializers g = none →
      decompStep code f recur i (Opcode.GetGlobal dst g) st
        = Except.error (Panic.panic "called unwrap on None"))
  ∧ (f.regtype dst = Except.ok rt → rt.val ≠ 13 →
      rt.resolve code.types = Except.ok (Ty.Enum n gl cs) →
      decompStep code f recur i (Opcode.GetGlobal dst g) st
        = st.push_expr code f i dst (Expr.Unknown "unknown enum variant"))
  ∧ (fn.display_id code = Except.ok did → fn.resolve_as_fn code = Except.ok none →
      decompStep code f recur i (Opcode.StaticClosure dst fn) st
        = Except.error (Panic.panic "called unwrap on None")) := by
  refine ⟨?_, ?_, ?_, ?_, ?_⟩
  · intro h
    simp [DecompilerState.expr, h]
  · intro hoff hls
    simp [decompStep, hoff, hls, exc_error_bind]
  · intro hrt h13 hlk
    simp [decompStep, hrt, h13, hlk, exc_ok_bind, exc_error_bind]
  · intro hrt h13 hres
    simp [decompStep, hrt, h13, hres, exc_ok_bind]
  · intro hdid hres
    simp [decompStep, hdid, hres, exc_ok_bind, exc_error_bind]

/-- C7 witness: each of the five behaviours at a concrete input — the empty
state's register 0, a backward jump with no loop open, the initializer-less
string global of `exGlobalFun`, an enum-typed global, and a `StaticClosure` of
the native findex 2. -/
theorem error_taxonomy_witness :
    lookupA stEmpty.reg_state (Reg.mk 0) = none
  ∧ stEmpty.expr (Reg.mk 0) = Expr.Unknown "missing expr"
  ∧ decompStep exCode exMain recurStub 0 (Opcode.JAlways (-1)) stEmpty
      = Except.error (Panic.panic "Backward jump but we aren't in a loop ?")
  ∧ decompStep exCode exGlobalFun recurStub 0
      (Opcode.GetGlobal (Reg.mk 0) (RefGlobal.mk 0)) stEmpty
      = Except.error (Panic.panic "called unwrap on None")
  ∧ decompStep exCode exEnumGlobalFun recurStub 0
      (Opcode.GetGlobal (Reg.mk 0) (RefGlobal.mk 0)) stEmpty
      = stEmpty.push_expr exCode exEnumGlobalFun 0 (Reg.mk 0)
          (Expr.Unknown "unknown enum variant")
  ∧ decompStep exCode exMain recurStub 0
      (Opcode.StaticClosure (Reg.mk 1) (RefFun.mk 2)) stEmpty
      = Except.error (Panic.panic "called unwrap on None") :=
  ⟨rfl,
    (error_taxonomy exCode exMain recurStub 0 stEmpty (Reg.mk 0) (Reg.mk 0) (-1)
      (RefGlobal.mk 0) (RefFun.mk 2) (RefType.mk 6) "A/f@2" (RefString.mk 0)
      (RefGlobal.mk 0) []).1 rfl,
    (error_taxonomy exCode exMain recurStub 0 stEmpty (Reg.mk 0) (Reg.mk 0) (-1)
      (RefGlobal.mk 0) (RefFun.mk 2) (RefType.mk 6) "A/f@2" (RefString.mk 0)
      (RefGlobal.mk 0) []).2.1 (by decide) rfl,
    (error_taxonomy exCode exGlobalFun recurStub 0 stEmpty (Reg.mk 0) (Reg.mk 0) (-1)
      (RefGlobal.mk 0) (RefFun.mk 2) (RefType.mk 13) "A/f@2" (RefString.mk 0)
      (RefGlobal.mk 0) []).2.2.1 rfl rfl rfl,
    (error_taxonomy exCode exEnumGlobalFun recurStub 0 stEmpty (Reg.mk 0) (Reg.mk 0) (-1)
      (RefGlobal.mk 0) (RefFun.mk 2) (RefType.mk 6) "A/f@2" (RefString.mk 0)
      (RefGlobal.mk 0) []).2.2.2.1 rfl (by decide) rfl,
    (error_taxonomy exCode exMain recurStub 0 stEmpty (Reg.mk 0) (Reg.mk 1) (-1)
      (RefGlobal.mk 0) (RefFun.mk 2) (RefType.mk 6) "A/f@2" (RefString.mk 0)
      (RefGlobal.mk 0) []).2.2.2.2 rfl rfl⟩

/-- C7 counterexample: the claim says a missing global initializer is
represented inline and `decompile_code` still returns a statement list; on
`exGlobalFun` (a string-typed `GetGlobal` whose global has no initializer) the
whole lift panics instead — no statement list is returned. -/
theorem error_taxonomy_counterexample :
    decompile_code 1 exCode exGlobalFun
      = Except.error (Panic.panic "called unwrap on None")
  ∧ (decompile_code 1 exCode exGlobalFun).isOk = false :=
  ⟨rfl, rfl⟩

theorem decompStep_recur_irrel (code : Bytecode) (f : Function)
    (r1 r2 : Function → Except Panic (List Statement)) (i : Nat) (o : Opcode)
    (st : DecompilerState) (ho : isClosureOp o = false) :
    decompStep code f r1 i o st = decompStep code f r2 i o st := by
  cases o <;> first
    | rfl
    | exact absurd ho (by simp [isClosureOp])

theorem decompLoop_recur_irrel (code : Bytecode) (f : Function)
    (r1 r2 : Function → Except Panic (List Statement)) (ops : List Opcode)
    (hops : ∀ o ∈ ops, isClosureOp o = false) :
    ∀ (i : Nat) (st : DecompilerState),
      decompLoop code f r1 i ops st = decompLoop code f r2 i ops st := by
  induction ops with
  | nil => intro i st; rfl
  | cons o rest ih =>
      intro i st
      simp only [decompLoop]
      rw [decompStep_recur_irrel code f r1 r2 i o st (hops o (List.mem_cons_self o rest))]
      cases h : decompStep code f r2 i o st with
      | error e => rfl
      | ok st' =>
          simp only [exc_ok_bind]
          exact ih (fun o ho => hops o (List.mem_cons_of_mem _ ho)) (i + 1) _

/-- C8 (amended). The lifter recurses only when lifting
`StaticClosure`/`InstanceClosure` bodies: on a function whose opcodes contain
no closure construction, any recursion-depth budget of at least 1 yields the
same (finite) result, i.e. the recursion depth needed equals the closure
nesting depth 0. (On cyclic closure references the recursion does not
terminate — see the counterexample.) -/
theorem closure_recursion (code : Bytecode) (f : Function) (n : Nat)
    (hcf : ClosureFree f) (h1 : 1 ≤ n) :
    decompile_code n code f = decompile_code 1 code f := by
  obtain ⟨m, rfl⟩ : ∃ m, n = m + 1 := ⟨n - 1, by omega⟩
  simp only [decompile_code]
  cases hnew : DecompilerState.new code f with
  | error e => rfl
  | ok st0 =>
      simp only [exc_ok_bind]
      rw [decompLoop_recur_irrel code f _ _ f.ops hcf 0 st0]

/-- C8 witness: the closure-free loop function lifts identically under fuel 2
and fuel 1. -/
theorem closure_recursion_witness :
    ClosureFree exLoopFun ∧ 1 ≤ 2
  ∧ decompile_code 2 exCode exLoopFun = decompile_code 1 exCode exLoopFun :=
  ⟨by unfold ClosureFree; decide, by decide,
    closure_recursion exCode exLoopFun 2 (by unfold ClosureFree; decide) (by decide)⟩

theorem cyc_outOfFuel : ∀ n : Nat,
    decompile_code n codeCyc fCyc = Except.error Panic.outOfFuel := by
  intro n
  induction n with
  | zero => rfl
  | succ m ih =>
      conv_lhs => rw [decompile_code]
      rw [show DecompilerState.new codeCyc fCyc = Except.ok stEmpty from rfl]
      simp only [exc_ok_bind]
      rw [show fCyc.ops = [Opcode.StaticClosure (Reg.mk 0) (RefFun.mk 0)] from rfl]
      simp only [decompLoop, decompStep]
      rw [show (RefFun.mk 0).display_id codeCyc = Except.ok "_@0" from rfl]
      simp only [exc_ok_bind]
      rw [show (RefFun.mk 0).resolve_as_fn codeCyc = Except.ok (some fCyc) from rfl]
      simp only [exc_ok_bind, exc_pure_eq]
      rw [ih]
      rfl

/-- C8 counterexample: the claim says `decompile_code` terminates for every
bytecode and function; on `fCyc`, whose only opcode takes a static closure of
itself, the recursion exceeds every depth budget — the lift does not
terminate. -/
theorem decomp_terminates_counterexample : ¬ DecompTerminates codeCyc fCyc := by
  rintro ⟨n, hn⟩
  exact hn (cyc_outOfFuel n)

/-! Support lemmas for the declaration-uniqueness invariant (C6). -/

theorem declTrueCount_append (tr : List Statement) (s : Statement) (n : String) :
    declTrueCount (tr ++ [s]) n
      = declTrueCount tr n + (if isDeclTrueFor n s then 1 else 0) := by
  simp [declTrueCount, List.countP_append, List.countP_cons]

theorem isDeclTrueFor_assign_var (n : String) (d : Bool) (dst : Reg)
    (nm : String) (e : Expr) :
    isDeclTrueFor n (Statement.Assign d (Expr.Variable dst (some nm)) e)
      = (d && (nm == n)) := by
  cases d <;> simp [isDeclTrueFor]

theorem seenTraceOk_push_safe (s0 se : List String) (tr : List Statement)
    (s : Statement) (hs : ∀ n, isDeclTrueFor n s = false)
    (h : SeenTraceOk s0 se tr) : SeenTraceOk s0 se (tr ++ [s]) := by
  intro n
  obtain ⟨h1, h2, h3⟩ := h n
  rw [declTrueCount_append, hs n]
  simpa using ⟨h1, h2, h3⟩

theorem seenTraceOk_named (s0 se : List String) (tr : List Statement)
    (dst : Reg) (nm : String) (e : Expr) (h : SeenTraceOk s0 se tr) :
    SeenTraceOk s0 (seenInsert se nm)
      (tr ++ [Statement.Assign (!se.contains nm)
        (Expr.Variable dst (some nm)) e]) := by
  intro n
  obtain ⟨h1, h2, h3⟩ := h n
  rw [declTrueCount_append, isDeclTrueFor_assign_var]
  by_cases hn : nm = n
  · subst hn
    by_cases hmem : nm ∈ se
    · have hc : se.contains nm = true := List.elem_eq_true_of_mem hmem
      have hsi : seenInsert se nm = se := by rw [seenInsert, if_pos hmem]
      rw [hc, hsi]
      simpa using ⟨h1, h2, h3⟩
    · have hc : se.contains nm = false := by
        cases hcc : se.contains nm with
        | false => rfl
        | true => exact absurd (List.mem_of_elem_eq_true hcc) hmem
      have hsi : seenInsert se nm = nm :: se := by rw [seenInsert, if_neg hmem]
      have hcount : declTrueCount tr nm = 0 := by
        rcases Nat.eq_zero_or_pos (declTrueCount tr nm) with h0 | hpos
        · exact h0
        · exact absurd (h1.mpr (Or.inr hpos)) hmem
      have hns0 : nm ∉ s0 := fun hx => absurd (h1.mpr (Or.inl hx)) hmem
      rw [hc, hsi, hcount]
      refine ⟨?_, ?_, ?_⟩
      · simp
      · simp
      · intro hn0; exact absurd hn0 hns0
  · have hbeq : (nm == n) = false := by
      cases hb : nm == n with
      | false => rfl
      | true => exact absurd (beq_iff_eq.mp hb) hn
    rw [hbeq]
    have hmm : (n ∈ seenInsert se nm) ↔ n ∈ se := by
      rw [seenInsert]
      split
      · exact Iff.rfl
      · constructor
        · intro hx
          rcases List.mem_cons.mp hx with hx' | hx'
          · exact absurd hx'.symm hn
          · exact hx'
        · exact fun hx => List.mem_cons_of_mem _ hx
    rw [hmm]
    simpa using ⟨h1, h2, h3⟩

theorem seenTraceInv_push_stmt (s0 : List String) (st : DecompilerState)
    (s : Statement) (hs : ∀ n, isDeclTrueFor n s = false)
    (h : SeenTraceInv s0 st) : SeenTraceInv s0 (st.push_stmt s) :=
  seenTraceOk_push_safe s0 st.seen st.emitted s hs h

theorem inv_pure_ok (s0 : List String) {st1 st' : DecompilerState}
    (he : (pure st1 : Except Panic DecompilerState) = Except.ok st')
    (h : SeenTraceInv s0 st1) : SeenTraceInv s0 st' := by
  simp only [exc_pure_eq, Except.ok.injEq] at he
  subst he
  exact h

theorem seenTraceInv_push_expr (s0 : List String) (code : Bytecode)
    (f : Function) (i : Nat) (dst : Reg) (e : Expr)
    (st st' : DecompilerState)
    (hpe : st.push_expr code f i dst e = Except.ok st')
    (h : SeenTraceInv s0 st) : SeenTraceInv s0 st' := by
  rw [DecompilerState.push_expr] at hpe
  rcases exc_bind_ok.mp hpe with ⟨nmOpt, _, hrest⟩
  cases nmOpt with
  | none =>
      simp only [exc_pure_eq, Except.ok.injEq] at hrest
      subst hrest
      exact h
  | some nm =>
      simp only [exc_pure_eq, Except.ok.injEq] at hrest
      subst hrest
      exact seenTraceOk_named s0 st.seen st.emitted dst nm e h

theorem seenTraceInv_push_jmp (s0 : List String) (code : Bytecode)
    (f : Function) (i : Nat) (offset : Int) (cond : Expr)
    (st st' : DecompilerState)
    (hpj : push_jmp code f i offset cond st = Except.ok st')
    (h : SeenTraceInv s0 st) : SeenTraceInv s0 st' := by
  simp only [push_jmp] at hpj
  split at hpj
  · rcases exc_bind_ok.mp hpj with ⟨op, -, hpj⟩
    split at hpj
    · split at hpj <;>
        (simp only [exc_pure_eq, Except.ok.injEq] at hpj; subst hpj; exact h)
    · simp only [exc_pure_eq, Except.ok.injEq] at hpj; subst hpj; exact h
  · simp only [exc_pure_eq, Except.ok.injEq] at hpj; subst hpj; exact h

theorem seenTraceInv_push_call (s0 : List String) (code : Bytecode)
    (f : Function) (i : Nat) (dst : Reg) (fn : RefFun) (args : List Reg)
    (st st' : DecompilerState)
    (hpc : push_call code f i dst fn args st = Except.ok st')
    (h : SeenTraceInv s0 st) : SeenTraceInv s0 st' := by
  simp only [push_call] at hpc
  split at hpc
  · rcases exc_bind_ok.mp hpc with ⟨a0, -, hpc⟩
    split at hpc
    · rcases exc_bind_ok.mp hpc with ⟨rt, -, hpc⟩
      rcases exc_bind_ok.mp hpc with ⟨st1, hst1, hpc⟩
      simp only [exc_pure_eq, Except.ok.injEq] at hpc
      subst hpc
      exact seenTraceInv_push_expr s0 code f _ _ _ st st1 hst1 h
    · simp only [exc_pure_eq, Except.ok.injEq] at hpc; subst hpc; exact h
  · rcases exc_bind_ok.mp hpc with ⟨cmt, -, hpc⟩
    rcases exc_bind_ok.mp hpc with ⟨fres, -, hpc⟩
    have h1 : SeenTraceInv s0 (st.push_stmt (Ast.comment cmt)) :=
      seenTraceInv_push_stmt s0 st _ (fun n => rfl) h
    split at hpc
    · split at hpc
      · rcases exc_bind_ok.mp hpc with ⟨a00, -, hpc⟩
        split at hpc
        · rcases exc_bind_ok.mp hpc with ⟨y, -, hpc⟩
          rcases exc_bind_ok.mp hpc with ⟨mname, -, hpc⟩
          rcases exc_bind_ok.mp hpc with ⟨callE, -, hpc⟩
          rcases exc_bind_ok.mp hpc with ⟨tf, -, hpc⟩
          split at hpc
          · simp only [exc_pure_eq, Except.ok.injEq] at hpc
            subst hpc
            exact seenTraceInv_push_stmt s0 _ _ (fun n => rfl) h1
          · exact seenTraceInv_push_expr s0 code f _ _ _ _ st' hpc h1
        · rcases exc_bind_ok.mp hpc with ⟨y, hy, -⟩
          exact Except.noConfusion hy
      · rcases exc_bind_ok.mp hpc with ⟨callE, -, hpc⟩
        rcases exc_bind_ok.mp hpc with ⟨tf, -, hpc⟩
        split at hpc
        · simp only [exc_pure_eq, Except.ok.injEq] at hpc
          subst hpc
          exact seenTraceInv_push_stmt s0 _ _ (fun n => rfl) h1
        · exact seenTraceInv_push_expr s0 code f _ _ _ _ st' hpc h1
    · rcases exc_bind_ok.mp hpc with ⟨callE, -, hpc⟩
      rcases exc_bind_ok.mp hpc with ⟨tf, -, hpc⟩
      split at hpc
      · simp only [exc_pure_eq, Except.ok.injEq] at hpc
        subst hpc
        exact seenTraceInv_push_stmt s0 _ _ (fun n => rfl) h1
      · exact seenTraceInv_push_expr s0 code f _ _ _ _ st' hpc h1

theorem end_last_loop_while (sc : Scopes) (w : Statement) (sc' : Scopes)
    (h : sc.end_last_loop = some (w, sc')) : ∀ n, isDeclTrueFor n w = false := by
  rw [Scopes.end_last_loop] at h
  split at h
  · simp only [Option.some.injEq, Prod.mk.injEq] at h
    obtain ⟨hw, -⟩ := h
    subst hw
    intro n
    rfl
  · exact Option.noConfusion h

theorem seenTraceInv_step (s0 : List String) (code : Bytecode) (f : Function)
    (recur : Function → Except Panic (List Statement)) (i : Nat) (o : Opcode)
    (st st' : DecompilerState)
    (hstep : decompStep code f recur i o st = Except.ok st')
    (h : SeenTraceInv s0 st) : SeenTraceInv s0 st' := by
  have hcmt : ∀ t : String, ∀ n, isDeclTrueFor n (Ast.comment t) = false :=
    fun t n => rfl
  cases o
  all_goals simp only [decompStep] at hstep
  case JAlways offset =>
      split at hstep
      · split at hstep
        · obtain ⟨y, -, hstep⟩ := exc_bind_ok.mp hstep
          split at hstep
          · exact inv_pure_ok s0 hstep
              (seenTraceInv_push_stmt s0 st _ (fun n => rfl) h)
          · split at hstep
            · rename_i w sc hel
              exact inv_pure_ok s0 hstep
                (seenTraceInv_push_stmt s0 { st with scopes := sc } w
                  (end_last_loop_while st.scopes w sc hel) h)
            · exact Except.noConfusion hstep
        · obtain ⟨y, hy, -⟩ := exc_bind_ok.mp hstep
          exact Except.noConfusion hy
      · split at hstep
        · split at hstep
          · exact inv_pure_ok s0 hstep h
          · exact Except.noConfusion hstep
        · split at hstep
          · obtain ⟨op, -, hstep⟩ := exc_bind_ok.mp hstep
            split at hstep
            · split at hstep
              · exact inv_pure_ok s0 hstep
                  (seenTraceInv_push_stmt s0 st _ (fun n => rfl) h)
              · exact inv_pure_ok s0 hstep h
            · exact inv_pure_ok s0 hstep h
          · split at hstep
            · exact inv_pure_ok s0 hstep h
            · exact inv_pure_ok s0 hstep h
  case Ret ret =>
      obtain ⟨rt, -, hstep⟩ := exc_bind_ok.mp hstep
      split at hstep
      · exact inv_pure_ok s0 hstep
          (seenTraceInv_push_stmt s0 st _ (fun n => rfl) h)
      · split at hstep
        · exact inv_pure_ok s0 hstep
            (seenTraceInv_push_stmt s0 st _ (fun n => rfl) h)
        · exact inv_pure_ok s0 hstep h
  case Mov dst src =>
      obtain ⟨st1, hst1, hstep⟩ := exc_bind_ok.mp hstep
      obtain ⟨vn, -, hstep⟩ := exc_bind_ok.mp hstep
      simp only [exc_pure_eq, Except.ok.injEq] at hstep
      subst hstep
      exact seenTraceInv_push_expr s0 code f _ _ _ st st1 hst1 h
  case Call0 dst fn =>
      obtain ⟨tf, -, hstep⟩ := exc_bind_ok.mp hstep
      split at hstep
      · exact inv_pure_ok s0 hstep
          (seenTraceInv_push_stmt s0 st _ (fun n => rfl) h)
      · exact seenTraceInv_push_expr s0 code f _ _ _ st st' hstep h
  case CallN dst fn args =>
      split at hstep
      · obtain ⟨a0, -, hstep⟩ := exc_bind_ok.mp hstep
        split at hstep
        · obtain ⟨rt, -, hstep⟩ := exc_bind_ok.mp hstep
          exact seenTraceInv_push_expr s0 code f _ _ _ st st' hstep h
        · exact inv_pure_ok s0 hstep h
      · obtain ⟨cmt, -, hstep⟩ := exc_bind_ok.mp hstep
        obtain ⟨tf, -, hstep⟩ := exc_bind_ok.mp hstep
        split at hstep
        · exact inv_pure_ok s0 hstep (seenTraceInv_push_stmt s0 _ _
            (fun n => rfl) (seenTraceInv_push_stmt s0 st _ (hcmt cmt) h))
        · exact seenTraceInv_push_expr s0 code f _ _ _ _ st' hstep
            (seenTraceInv_push_stmt s0 st _ (hcmt cmt) h)
  case CallMethod dst field args =>
      obtain ⟨a0, -, hstep⟩ := exc_bind_ok.mp hstep
      obtain ⟨rt0, -, hstep⟩ := exc_bind_ok.mp hstep
      obtain ⟨fld, -, hstep⟩ := exc_bind_ok.mp hstep
      obtain ⟨mres, -, hstep⟩ := exc_bind_ok.mp hstep
      split at hstep
      · obtain ⟨fres, -, hstep⟩ := exc_bind_ok.mp hstep
        split at hstep
        · obtain ⟨tf, -, hstep⟩ := exc_bind_ok.mp hstep
          obtain ⟨y, -, hstep⟩ := exc_bind_ok.mp hstep
          split at hstep
          · exact inv_pure_ok s0 hstep
              (seenTraceInv_push_stmt s0 st _ (fun n => rfl) h)
          · exact seenTraceInv_push_expr s0 code f _ _ _ st st' hstep h
        · obtain ⟨y, -, hstep⟩ := exc_bind_ok.mp hstep
          split at hstep
          · exact inv_pure_ok s0 hstep
              (seenTraceInv_push_stmt s0 st _ (fun n => rfl) h)
          · exact seenTraceInv_push_expr s0 code f _ _ _ st st' hstep h
      · obtain ⟨y, -, hstep⟩ := exc_bind_ok.mp hstep
        split at hstep
        · exact inv_pure_ok s0 hstep
            (seenTraceInv_push_stmt s0 st _ (fun n => rfl) h)
        · exact seenTraceInv_push_expr s0 code f _ _ _ st st' hstep h
  case CallThis dst field args =>
      obtain ⟨r0, -, hstep⟩ := exc_bind_ok.mp hstep
      obtain ⟨mres, -, hstep⟩ := exc_bind_ok.mp hstep
      split at hstep
      · obtain ⟨y, -, hstep⟩ := exc_bind_ok.mp hstep
        obtain ⟨mname, -, hstep⟩ := exc_bind_ok.mp hstep
        obtain ⟨fres, -, hstep⟩ := exc_bind_ok.mp hstep
        split at hstep
        · obtain ⟨tf, -, hstep⟩ := exc_bind_ok.mp hstep
          obtain ⟨y2, -, hstep⟩ := exc_bind_ok.mp hstep
          split at hstep
          · exact inv_pure_ok s0 hstep
              (seenTraceInv_push_stmt s0 st _ (fun n => rfl) h)
          · exact seenTraceInv_push_expr s0 code f _ _ _ st st' hstep h
        · obtain ⟨y2, -, hstep⟩ := exc_bind_ok.mp hstep
          split at hstep
          · exact inv_pure_ok s0 hstep
              (seenTraceInv_push_stmt s0 st _ (fun n => rfl) h)
          · exact seenTraceInv_push_expr s0 code f _ _ _ st st' hstep h
      · obtain ⟨y, hy, -⟩ := exc_bind_ok.mp hstep
        exact Except.noConfusion hy
  case CallClosure dst fn args =>
      obtain ⟨rtF, -, hstep⟩ := exc_bind_ok.mp hstep
      obtain ⟨fres, -, hstep⟩ := exc_bind_ok.mp hstep
      split at hstep
      · obtain ⟨isVoid, -, hstep⟩ := exc_bind_ok.mp hstep
        split at hstep
        · exact inv_pure_ok s0 hstep
            (seenTraceInv_push_stmt s0 st _ (fun n => rfl) h)
        · exact seenTraceInv_push_expr s0 code f _ _ _ st st' hstep h
      · obtain ⟨isVoid, -, hstep⟩ := exc_bind_ok.mp hstep
        split at hstep
        · exact inv_pure_ok s0 hstep
            (seenTraceInv_push_stmt s0 st _ (fun n => rfl) h)
        · exact seenTraceInv_push_expr s0 code f _ _ _ st st' hstep h
  case StaticClosure dst fn =>
      obtain ⟨did, -, hstep⟩ := exc_bind_ok.mp hstep
      obtain ⟨fres, -, hstep⟩ := exc_bind_ok.mp hstep
      split at hstep
      · obtain ⟨y, -, hstep⟩ := exc_bind_ok.mp hstep
        obtain ⟨body, -, hstep⟩ := exc_bind_ok.mp hstep
        exact seenTraceInv_push_expr s0 code f _ _ _ _ st' hstep
          (seenTraceInv_push_stmt s0 st _ (fun n => rfl) h)
      · obtain ⟨y, hy, -⟩ := exc_bind_ok.mp hstep
        exact Except.noConfusion hy
  case InstanceClosure dst obj fn =>
      obtain ⟨did, -, hstep⟩ := exc_bind_ok.mp hstep
      obtain ⟨rtO, -, hstep⟩ := exc_bind_ok.mp hstep
      obtain ⟨tyres, -, hstep⟩ := exc_bind_ok.mp hstep
      split at hstep
      · obtain ⟨fres, -, hstep⟩ := exc_bind_ok.mp hstep
        split at hstep
        · obtain ⟨y, -, hstep⟩ := exc_bind_ok.mp hstep
          obtain ⟨body, -, hstep⟩ := exc_bind_ok.mp hstep
          exact seenTraceInv_push_expr s0 code f _ _ _ _ st' hstep
            (seenTraceInv_push_stmt s0 st _ (fun n => rfl) h)
        · obtain ⟨y, hy, -⟩ := exc_bind_ok.mp hstep
          exact Except.noConfusion hy
      · obtain ⟨fres, -, hstep⟩ := exc_bind_ok.mp hstep
        split at hstep
        · obtain ⟨y, -, hstep⟩ := exc_bind_ok.mp hstep
          obtain ⟨nm, -, hstep⟩ := exc_bind_ok.mp hstep
          exact seenTraceInv_push_expr s0 code f _ _ _ _ st' hstep
            (seenTraceInv_push_stmt s0 st _ (fun n => rfl) h)
        · obtain ⟨y, hy, -⟩ := exc_bind_ok.mp hstep
          exact Except.noConfusion hy
  case GetGlobal dst global =>
      obtain ⟨rt, -, hstep⟩ := exc_bind_ok.mp hstep
      split at hstep
      · split at hstep
        · split at hstep
          · obtain ⟨cd, -, hstep⟩ := exc_bind_ok.mp hstep
            obtain ⟨f0, -, hstep⟩ := exc_bind_ok.mp hstep
            obtain ⟨y, -, hstep⟩ := exc_bind_ok.mp hstep
            exact seenTraceInv_push_expr s0 code f _ _ _ st st' hstep h
          · obtain ⟨y, hy, -⟩ := exc_bind_ok.mp hstep
            exact Except.noConfusion hy
        · obtain ⟨y, hy, -⟩ := exc_bind_ok.mp hstep
          exact Except.noConfusion hy
      · obtain ⟨tyres, -, hstep⟩ := exc_bind_ok.mp hstep
        split at hstep
        · obtain ⟨nm, -, hstep⟩ := exc_bind_ok.mp hstep
          exact seenTraceInv_push_expr s0 code f _ _ _ st st' hstep h
        · obtain ⟨nm, -, hstep⟩ := exc_bind_ok.mp hstep
          exact seenTraceInv_push_expr s0 code f _ _ _ st st' hstep h
        · exact seenTraceInv_push_expr s0 code f _ _ _ st st' hstep h
        · exact inv_pure_ok s0 hstep h
  case SetField obj field src =>
      split at hstep
      · split at hstep
        · obtain ⟨y, hy, -⟩ := exc_bind_ok.mp hstep
          exact Except.noConfusion hy
        · obtain ⟨y, -, hstep⟩ := exc_bind_ok.mp hstep
          split at hstep
          · obtain ⟨rtO, -, hstep⟩ := exc_bind_ok.mp hstep
            exact seenTraceInv_push_expr s0 code f _ _ _ _ st' hstep h
          · exact inv_pure_ok s0 hstep h
      · exact inv_pure_ok s0 hstep h
      · obtain ⟨rtO, -, hstep⟩ := exc_bind_ok.mp hstep
        obtain ⟨fldE, -, hstep⟩ := exc_bind_ok.mp hstep
        exact inv_pure_ok s0 hstep
          (seenTraceInv_push_stmt s0 st _ (fun n => rfl) h)
  case SetEnumField value field src =>
      split at hstep
      · exact inv_pure_ok s0 hstep
          (seenTraceInv_push_stmt s0 st _ (fun n => rfl) h)
      · exact inv_pure_ok s0 hstep (seenTraceInv_push_stmt s0 _ _
          (fun n => rfl) (seenTraceInv_push_stmt s0 st _ (fun n => rfl) h))
  case New dst =>
      obtain ⟨rt, -, hstep⟩ := exc_bind_ok.mp hstep
      obtain ⟨tyres, -, hstep⟩ := exc_bind_ok.mp hstep
      split at hstep
      · exact inv_pure_ok s0 hstep h
      · exact inv_pure_ok s0 hstep h
      · exact inv_pure_ok s0 hstep h
      · exact seenTraceInv_push_expr s0 code f _ _ _ st st' hstep h
  all_goals try exact seenTraceInv_push_jmp s0 code f i _ _ st st' hstep h
  all_goals try exact seenTraceInv_push_call s0 code f i _ _ _ st st' hstep h
  all_goals try exact seenTraceInv_push_expr s0 code f _ _ _ st st' hstep h
  all_goals try exact inv_pure_ok s0 hstep h
  all_goals try exact inv_pure_ok s0 hstep (seenTraceInv_push_stmt s0 st _ (fun n => rfl) h)
  all_goals try obtain ⟨v1, -, hstep⟩ := exc_bind_ok.mp hstep
  all_goals try exact seenTraceInv_push_expr s0 code f _ _ _ st st' hstep h
  all_goals try exact inv_pure_ok s0 hstep (seenTraceInv_push_stmt s0 st _ (fun n => rfl) h)
  all_goals try obtain ⟨v2, -, hstep⟩ := exc_bind_ok.mp hstep
  all_goals try exact seenTraceInv_push_expr s0 code f _ _ _ st st' hstep h
  all_goals exact inv_pure_ok s0 hstep (seenTraceInv_push_stmt s0 st _ (fun n => rfl) h)

theorem seenTraceInv_loop (s0 : List String) (code : Bytecode) (f : Function)
    (recur : Function → Except Panic (List Statement)) (ops : List Opcode) :
    ∀ (i : Nat) (st st' : DecompilerState),
    decompLoop code f recur i ops st = Except.ok st' →
    SeenTraceInv s0 st → SeenTraceInv s0 st' := by
  induction ops with
  | nil =>
      intro i st st' hl h
      simp only [decompLoop, exc_pure_eq, Except.ok.injEq] at hl
      subst hl
      exact h
  | cons o rest ih =>
      intro i st st' hl h
      simp only [decompLoop] at hl
      obtain ⟨st1, hst1, hl⟩ := exc_bind_ok.mp hl
      exact ih (i + 1) _ st' hl (seenTraceInv_step s0 code f recur i o st st1 hst1 h)

theorem new_emitted (code : Bytecode) (f : Function) (st0 : DecompilerState)
    (h0 : DecompilerState.new code f = Except.ok st0) : st0.emitted = [] := by
  simp only [DecompilerState.new] at h0
  obtain ⟨isThis, -, h0⟩ := exc_bind_ok.mp h0
  obtain ⟨tf, -, h0⟩ := exc_bind_ok.mp h0
  obtain ⟨p, -, h0⟩ := exc_bind_ok.mp h0
  obtain ⟨rs, seen⟩ := p
  simp only [exc_pure_eq, Except.ok.injEq] at h0
  subst h0
  rfl

theorem seenTraceOk_init (s : List String) : SeenTraceOk s s [] := by
  intro n
  have hz : declTrueCount [] n = 0 := rfl
  refine ⟨?_, ?_, ?_⟩ <;> simp [hz]

/-- C6: within a single function lift, relative to the set of names seeded
into `seen` by `DecompilerState::new` (the named arguments): a name is in the
final `seen` set exactly when it was seeded or a `declaration = true`
assignment to it was emitted; at most one `declaration = true` assignment
carries each name across the whole function (so every later assignment to
that name carries `declaration = false`); and a seeded name never receives a
`declaration = true` assignment at all — its first materialized assignment
already carries `declaration = false`, diverging from the claim's "the name
enters the seen set exactly when the first assignment using it is
materialized as Assign{declaration=true}". -/
theorem declaration_uniqueness (code : Bytecode) (f : Function)
    (recur : Function → Except Panic (List Statement))
    (st0 st' : DecompilerState)
    (h0 : DecompilerState.new code f = Except.ok st0)
    (hrun : decompLoop code f recur 0 f.ops st0 = Except.ok st')
    (n : String) :
    (n ∈ st'.seen ↔ (n ∈ st0.seen ∨ 0 < declTrueCount st'.emitted n)) ∧
    declTrueCount st'.emitted n ≤ 1 ∧
    (n ∈ st0.seen → declTrueCount st'.emitted n = 0) := by
  have hbase : SeenTraceInv st0.seen st0 := by
    unfold SeenTraceInv
    rw [new_emitted code f st0 h0]
    exact seenTraceOk_init st0.seen
  exact seenTraceInv_loop st0.seen code f recur f.ops 0 st0 st' hrun hbase n

/-- C6 witness: the invariants of `declaration_uniqueness` instantiated on
the one-opcode function `exArgsFun` with the name `x`. -/
theorem declaration_uniqueness_witness :
    ("x" ∈ stArgsEnd.seen ↔
      ("x" ∈ stArgsInit.seen ∨ 0 < declTrueCount stArgsEnd.emitted "x")) ∧
    declTrueCount stArgsEnd.emitted "x" ≤ 1 ∧
    ("x" ∈ stArgsInit.seen → declTrueCount stArgsEnd.emitted "x" = 0) :=
  declaration_uniqueness exCode exArgsFun recurStub stArgsInit stArgsEnd rfl
    rfl "x"

/-- C6 counterexample to the claim as stated: lifting `exArgsFun` (one i32
argument named `x`, one opcode assigning to `x`) leaves `x` in `seen` and
emits an `Assign` to `x`, yet no `declaration = true` assignment to `x` is
emitted anywhere — the name entered `seen` by argument seeding, not by a
materialized declaration, and the function's sole assignment to `x` carries
`declaration = false`. -/
theorem declaration_uniqueness_counterexample :
    DecompilerState.new exCode exArgsFun = Except.ok stArgsInit ∧
    decompLoop exCode exArgsFun recurStub 0 exArgsFun.ops stArgsInit =
      Except.ok stArgsEnd ∧
    stArgsEnd.emitted = [Statement.Assign false
      (Expr.Variable (Reg.mk 0) (some "x"))
      (Expr.Constant (Constant.IntLit 7))] ∧
    "x" ∈ stArgsEnd.seen ∧
    declTrueCount stArgsEnd.emitted "x" = 0 :=
  ⟨rfl, rfl, rfl, by decide, rfl⟩

end Hlbc
